import Mathlib

/-!
Verification development for the gh-actions-observability repository.

The TypeScript sources are shallowly embedded: pure functions become Lean
functions over `String` / `List Char`, JS numbers become `Int` (the runs in
this system carry integer identifiers and epoch-millisecond timestamps),
`Date` parsing is abstracted as a `String → Option Int` parameter (with
`none` standing for `NaN`), and the Convex document store is an explicit
state record threaded through queries and mutations.  Regular-expression
tests from the sources are embedded as equivalent executable character-level
matchers (the regexes involved are anchored literals, literal alternations,
`\d+`/`\s+` runs and word-boundary tests; each matcher notes the regex it
implements).  Case-insensitive regex tests are embedded by lowercasing both
sides, which agrees with JS semantics on the ASCII text these patterns
target.
-/

/-! ### Character helpers (JS `\s`, `\w`, `\d` classes restricted to ASCII) -/

/-- JS whitespace class `\s` (the ASCII part, which is all the sources use). -/
def jsIsSpace (c : Char) : Bool :=
  c = ' ' || c = '\t' || c = '\n' || c = '\r' || c = '\x0b' || c = '\x0c'

/-- JS word-character class `\w` = `[A-Za-z0-9_]`. -/
def isWordChar (c : Char) : Bool :=
  ('a' ≤ c && c ≤ 'z') || ('A' ≤ c && c ≤ 'Z') || ('0' ≤ c && c ≤ '9') || c = '_'

/-- JS digit class `\d` = `[0-9]`. -/
def isDigitChar (c : Char) : Bool :=
  '0' ≤ c && c ≤ '9'

/-- Substring test on character lists (JS `String.prototype.includes`). -/
def listContains (pat s : List Char) : Bool :=
  s.tails.any (fun t => pat.isPrefixOf t)

/-- Lowercase a string character-wise (JS `toLowerCase` on ASCII input). -/
def lowerChars (s : String) : List Char :=
  s.toList.map Char.toLower

/-- Case-insensitive substring test: embeds `/lit/i.test(line)` for a literal
pattern `lit` (already written lowercase at every use site). -/
def ciHas (pat line : String) : Bool :=
  listContains (lowerChars pat) (lowerChars line)

/-- Case-insensitive prefix test: embeds `/^lit/i.test(line)`. -/
def startsWithCI (pat line : String) : Bool :=
  (lowerChars pat).isPrefixOf (lowerChars line)

/-- Drop a literal pattern from the front of an (already lowercased) character
list, if present. -/
def dropStartCI (pat : String) (l : List Char) : Option (List Char) :=
  if pat.toList.isPrefixOf l then some (l.drop pat.toList.length) else none

/-- `w` occurs at the head of `t` as a whole word (right boundary checked). -/
def wordAt (w t : List Char) : Bool :=
  w.isPrefixOf t &&
    (match t.drop w.length with
     | [] => true
     | c :: _ => !isWordChar c)

/-- Scan for a whole-word occurrence; `prevOk` records that the character
before the current position is not a word character (left boundary). -/
def hasWordAux (w : List Char) (prevOk : Bool) : List Char → Bool
  | [] => prevOk && wordAt w []
  | c :: rest => (prevOk && wordAt w (c :: rest)) || hasWordAux w (!isWordChar c) rest

/-- Embeds `/\bw\b/i.test(line)` for a literal word `w`. -/
def hasWordCI (w line : String) : Bool :=
  hasWordAux (lowerChars w) true (lowerChars line)

/-- JS `trim()` (ASCII whitespace). -/
def jsTrimChars (l : List Char) : List Char :=
  ((l.dropWhile jsIsSpace).reverse.dropWhile jsIsSpace).reverse

/-- Trailing-whitespace trim, used by the `^\s*if\s+.*:\s*$` matcher. -/
def jsTrimRight (l : List Char) : List Char :=
  (l.reverse.dropWhile jsIsSpace).reverse

/-- JS `"s".split(c)` on a single-character separator: every occurrence
splits, empty fields kept, empty input gives `[""]`. -/
def splitOnChar (c : Char) : List Char → List (List Char)
  | [] => [[]]
  | x :: rest =>
    let r := splitOnChar c rest
    if x = c then [] :: r
    else
      match r with
      | [] => [[x]]
      | h :: t => (x :: h) :: t

/-- JS `str.replace(pat, "")` for a literal `pat` (first occurrence only,
which is all `fallbackWorkflowName` relies on). -/
def replaceFirst (pat : List Char) : List Char → List Char
  | [] => []
  | c :: rest =>
    if pat.isPrefixOf (c :: rest) && !pat.isEmpty then (c :: rest).drop pat.length
    else c :: replaceFirst pat rest

/-! ### ANSI / timestamp / marker stripping (`stripAnsi`, `normalizeLogLine`)

Both `convex/history.ts` and the `/api/history` route define identical
`stripAnsi` and `normalizeLogLine` functions; they are embedded once. -/

/-- After an ESC character, try to consume `[[0-9;]*m` (the body of one ANSI
color code).  Returns the remainder on success. -/
def ansiTail (l : List Char) : Option (List Char) :=
  match l with
  | [] => none
  | c :: rest =>
    if c = '[' then
      match rest.dropWhile (fun d => isDigitChar d || d = ';') with
      | [] => none
      | d :: rest' => if d = 'm' then some rest' else none
    else none

theorem ansiTail_some_length {l r : List Char} (h : ansiTail l = some r) :
    r.length < l.length := by
  match l with
  | [] => simp [ansiTail] at h
  | c :: rest =>
    have h0 : (if c = '[' then
        match rest.dropWhile (fun d => isDigitChar d || d = ';') with
        | [] => none
        | d :: rest' => if d = 'm' then some rest' else none
      else none) = some r := h
    by_cases hc : c = '['
    · rw [if_pos hc] at h0
      rcases hd : rest.dropWhile (fun d => isDigitChar d || d = ';') with _ | ⟨d, rest'⟩
      · rw [hd] at h0; cases h0
      · rw [hd] at h0
        have h1 : (if d = 'm' then some rest' else none) = some r := h0
        by_cases hm : d = 'm'
        · rw [if_pos hm] at h1
          have hr : rest' = r := by simpa using h1
          subst hr
          have h2 : (d :: rest').length ≤ rest.length := by
            rw [← hd]; exact (rest.dropWhile_sublist _).length_le
          simp only [List.length_cons] at h2 ⊢
          omega
        · rw [if_neg hm] at h1; cases h1
    · rw [if_neg hc] at h0; cases h0

/-- The scan of `stripAnsi`, recursing on a length bound so that the kernel
can evaluate it (`ansiTail_some_length` shows every step consumes at least
one character, so `fuel = l.length` never runs out). -/
def ansiScan : Nat → List Char → List Char
  | 0, _ => []
  | _, [] => []
  | fuel + 1, c :: rest =>
    if c = '\x1b' then
      match ansiTail rest with
      | some rest' => ansiScan fuel rest'
      | none => c :: ansiScan fuel rest
    else c :: ansiScan fuel rest

/-- Embeds `input.replace(/\u001B\[[0-9;]*m/g, "")` (`stripAnsi`): scan left
to right, removing every maximal `ESC [ [0-9;]* m` code. -/
def stripAnsiChars (l : List Char) : List Char :=
  ansiScan l.length l

/-- Match the `\S+Z\s+` part of the timestamp regex against the characters
following the literal `T`; on success return the remainder after the
(greedily consumed) whitespace run.  Because `\S+` cannot cross whitespace
and `Z` must be followed by `\s`, the `Z` is forced to be the final character
of the maximal non-whitespace run. -/
def tsMatchTail (l : List Char) : Option (List Char) :=
  let run := l.takeWhile (fun c => !jsIsSpace c)
  let rest := l.drop run.length
  if 2 ≤ run.length && run.getLast? = some 'Z' then
    match rest with
    | c :: rest' => if jsIsSpace c then some (rest'.dropWhile jsIsSpace) else none
    | [] => none
  else none

/-- Embeds `.replace(/^\d{4}-\d{2}-\d{2}T\S+Z\s+/, "")` (leading
ISO-timestamp strip; single anchored replacement). -/
def stripTimestampChars (l : List Char) : List Char :=
  match l with
  | d1 :: d2 :: d3 :: d4 :: s1 :: d5 :: d6 :: s2 :: d7 :: d8 :: t :: rest =>
    if isDigitChar d1 && isDigitChar d2 && isDigitChar d3 && isDigitChar d4 &&
       s1 = '-' && isDigitChar d5 && isDigitChar d6 && s2 = '-' &&
       isDigitChar d7 && isDigitChar d8 && t = 'T' then
      match tsMatchTail rest with
      | some rest' => rest'
      | none => l
    else l
  | _ => l

/-- Drop one leading literal marker if present (embeds the anchored
`.replace(/^::error::/, "")` and `.replace(/^##\[error\]/, "")`). -/
def stripMarker (pat : String) (l : List Char) : List Char :=
  if pat.toList.isPrefixOf l then l.drop pat.toList.length else l

/-- `normalizeLogLine` from `convex/history.ts` / the `/api/history` route:
strip ANSI codes, a leading ISO timestamp, leading `::error::` and
`##[error]` markers, then trim. -/
def normalizeLogLine (line : String) : String :=
  ⟨jsTrimChars (stripMarker "##[error]"
      (stripMarker "::error::" (stripTimestampChars (stripAnsiChars line.toList))))⟩

/-! ### Structural line filters (shared filter chain / `isUsefulLogLine`)

`convex/history.ts` applies these as an inline `.filter` chain; the
`/api/history` route names the identical chain `isUsefulLogLine`. -/

/-- Embeds `/^Run\s+/i.test(line)`. -/
def runLineStart (line : String) : Bool :=
  match lowerChars line with
  | 'r' :: 'u' :: 'n' :: c :: _ => jsIsSpace c
  | _ => false

/-- Embeds `/^print\(f?["']Error:/i.test(line)`. -/
def printErrorStart (line : String) : Bool :=
  match dropStartCI "print(" (lowerChars line) with
  | none => false
  | some r1 =>
    let r2 := match r1 with
      | 'f' :: rest => rest
      | _ => r1
    match r2 with
    | q :: rest => (q = '"' || q = '\'') && "error:".toList.isPrefixOf rest
    | [] => false

/-- Embeds the `^\s*if\s+.*:\s*$` alternative: after optional leading
whitespace, literal `if`, at least one whitespace character, then the line
must end (up to trailing whitespace) with a colon. -/
def ifColonLine (line : String) : Bool :=
  match (lowerChars line).dropWhile jsIsSpace with
  | 'i' :: 'f' :: c :: rest => jsIsSpace c && (jsTrimRight (c :: rest)).getLast? = some ':'
  | _ => false

/-- Embeds `/result_text\.lower\(\)|command_success|^\s*if\s+.*:\s*$/i.test(line)`. -/
def pythonInternalsLine (line : String) : Bool :=
  ciHas "result_text.lower()" line || ciHas "command_success" line || ifColonLine line

/-- Embeds `/^Process completed with exit code \d+\.?$/i.test(line)`. -/
def processCompletedLine (line : String) : Bool :=
  match dropStartCI "process completed with exit code " (lowerChars line) with
  | none => false
  | some rest =>
    let ds := rest.takeWhile isDigitChar
    let tail := rest.drop ds.length
    !ds.isEmpty && (tail = [] || tail = ['.'])

/-- The structural-usefulness filter chain applied to each normalized line
(identical in both extractors): nonempty, length in `[8, 240]`, and none of
the boilerplate shapes. -/
def isUsefulLogLine (line : String) : Bool :=
  !line.toList.isEmpty &&
  decide (8 ≤ line.toList.length) && decide (line.toList.length ≤ 240) &&
  !startsWithCI "[command]" line &&
  !(runLineStart line && !ciHas "system$get_dbt_log" line) &&
  !(line.toList.head? = some '#') &&
  !startsWithCI "##[warning]" line &&
  !printErrorStart line &&
  !pythonInternalsLine line &&
  !processCompletedLine line

/-! ### Domain-error pattern tables -/

/-- Embeds `/Got \d+ results,\s+configured to warn if/i` matched at the head
of `l` (lowercased input). -/
def gotResultsAt (l : List Char) : Bool :=
  match dropStartCI "got " l with
  | none => false
  | some r1 =>
    let ds := r1.takeWhile isDigitChar
    if ds.isEmpty then false
    else
      match dropStartCI " results," (r1.drop ds.length) with
      | none => false
      | some r2 =>
        let ws := r2.takeWhile jsIsSpace
        !ws.isEmpty && "configured to warn if".toList.isPrefixOf (r2.drop ws.length)

/-- Embeds `/Got \d+ results,\s+configured to warn if/i.test(line)`. -/
def gotResultsMatch (line : String) : Bool :=
  (lowerChars line).tails.any gotResultsAt

/-- The pattern table of `extractErrorHighlights` in `convex/history.ts`
(its `patterns` array, as one disjunction — the code only asks whether some
pattern matches). -/
def matchesConvexPattern (line : String) : Bool :=
  ciHas "database error" line ||
  ciHas "compilation error" line ||
  ciHas "runtime error" line ||
  ciHas "warning in test" line ||
  ciHas "system$get_dbt_log" line ||
  ciHas "dbt job failed" line ||
  ciHas "error in model" line ||
  ciHas "error in test" line ||
  ciHas "sql compilation error" line ||
  hasWordCI "error" line ||
  hasWordCI "failed" line

/-- The `logErrorPatterns` table of the `/api/history` route, as one
disjunction. -/
def matchesApiPattern (line : String) : Bool :=
  ciHas "database error" line ||
  ciHas "compilation error" line ||
  ciHas "runtime error" line ||
  ciHas "failure in test" line ||
  ciHas "warning in test" line ||
  gotResultsMatch line ||
  ciHas "system$get_dbt_log" line ||
  ciHas "dbt job failed" line ||
  ciHas "sql compilation error" line ||
  ciHas "encountered an error" line ||
  ciHas "permission denied" line ||
  ciHas "traceback (most recent call last):" line ||
  hasWordCI "error" line ||
  hasWordCI "failed" line

/-- `scoreLogLine` from the `/api/history` route: 5 for strong structured
diagnostics down to 1 for a generic `failed` keyword hit. -/
def scoreLogLine (line : String) : Nat :=
  if ciHas "system$get_dbt_log" line then 5
  else if ciHas "warning in test" line || gotResultsMatch line then 4
  else if ciHas "database error" line || ciHas "compilation error" line ||
          ciHas "runtime error" line || ciHas "failure in test" line then 5
  else if ciHas "error in model" line || ciHas "error in test" line ||
          ciHas "sql compilation error" line then 4
  else if ciHas "traceback (most recent call last):" line || ciHas "exception" line then 3
  else if hasWordCI "error" line then 2
  else if hasWordCI "failed" line then 1
  else 0

/-! ### `extractErrorHighlights` — `convex/history.ts` version

Scans the filtered lines from the end (most recent first), collects lines
matching some pattern, deduplicates by exact text, stops at 6.  It performs
no scoring and no reordering. -/

namespace History

/-- The scan loop of `extractErrorHighlights` (`for i = lines.length-1 … 0`):
`revLines` is the filtered line list reversed (most recent first), `acc` the
matches collected so far in encounter order. -/
def highlightLoop (acc : List String) : List String → List String
  | [] => acc
  | l :: rest =>
    if matchesConvexPattern l then
      let acc' := if acc.contains l then acc else acc ++ [l]
      if 6 ≤ acc'.length then acc' else highlightLoop acc' rest
    else highlightLoop acc rest

/-- `extractErrorHighlights` from `convex/history.ts`: normalize and filter
the lines, then collect up to 6 deduplicated pattern matches scanning from
the most recent line backwards. -/
def extractErrorHighlights (logText : String) : List String :=
  let lines := (((splitOnChar '\n' logText.toList).map
      (fun l => normalizeLogLine ⟨l⟩)).filter isUsefulLogLine)
  highlightLoop [] lines.reverse

end History

/-! ### `extractErrorHighlights` — `/api/history` route version

Builds scored candidates (recency 0 = most recent match), sorts by score
descending then recency ascending, deduplicates by line text keeping the
first (highest-ranked) occurrence, and returns the top `limit` lines. -/

/-- One scored candidate line of the `/api/history` extractor. -/
structure Candidate where
  line : String
  score : Nat
  recency : Nat
deriving DecidableEq, Repr

/-- The sort order realised by the JS comparator
`(a, b) => b.score - a.score || a.recency - b.recency`: score descending,
recency ascending.  On the candidate lists built below all recencies are
distinct, so this is a total order and the sorted result is unique — any
sorting algorithm (here: insertion sort) produces exactly the JS result. -/
def candRel (a b : Candidate) : Prop :=
  b.score < a.score ∨ (a.score = b.score ∧ a.recency ≤ b.recency)

instance : DecidableRel candRel := fun _ _ =>
  inferInstanceAs (Decidable (_ ∨ _))

instance : IsTotal Candidate candRel where
  total a b := by
    rcases Nat.lt_trichotomy a.score b.score with h | h | h
    · exact Or.inr (Or.inl h)
    · rcases Nat.le_total a.recency b.recency with h2 | h2
      · exact Or.inl (Or.inr ⟨h, h2⟩)
      · exact Or.inr (Or.inr ⟨h.symm, h2⟩)
    · exact Or.inl (Or.inl h)

instance : IsTrans Candidate candRel where
  trans _ _ _ hab hbc := by
    rcases hab with h1 | ⟨h1, h1'⟩ <;> rcases hbc with h2 | ⟨h2, h2'⟩
    · exact Or.inl (h2.trans h1)
    · exact Or.inl (h2 ▸ h1)
    · exact Or.inl (h1 ▸ h2)
    · exact Or.inr ⟨h1.trans h2, h1'.trans h2'⟩

/-- Keep the first element for each key, in order (the net effect of
`Array.from(new Map(list.map(c => [c.line, c])).values())` on the `.line`
projection: a JS `Map` keeps the position of the first insertion of a key,
and the only field read afterwards, `.line`, equals the key). -/
def dedupeGo {α β : Type} [DecidableEq β] (key : α → β) : Nat → List α → List α
  | 0, _ => []
  | _, [] => []
  | fuel + 1, c :: rest =>
    c :: dedupeGo key fuel (rest.filter (fun d => key d ≠ key c))

/-- Entry point of the keep-first deduplication: `fuel = l.length` is enough
since filtering only shortens the list (`dedupeGo_fuel`). -/
def dedupeByKey {α β : Type} [DecidableEq β] (key : α → β) (l : List α) : List α :=
  dedupeGo key l.length l

theorem dedupeGo_fuel {α β : Type} [DecidableEq β] (key : α → β) :
    ∀ (n : Nat) (l : List α) (fuel : Nat), l.length ≤ fuel → l.length ≤ n →
      dedupeGo key fuel l = dedupeGo key n l := by
  intro n
  induction n with
  | zero =>
    intro l fuel h1 h2
    match l with
    | [] => cases fuel <;> rfl
    | c :: rest => simp at h2
  | succ n ih =>
    intro l fuel h1 h2
    match l, fuel with
    | [], 0 => rfl
    | [], fuel + 1 => rfl
    | c :: rest, 0 => simp at h1
    | c :: rest, fuel + 1 =>
      simp only [dedupeGo]
      have hf : (rest.filter (fun d => key d ≠ key c)).length ≤ rest.length :=
        rest.length_filter_le _
      simp only [List.length_cons] at h1 h2
      rw [ih _ fuel (by omega) (by omega)]

/-- The recurrence the JS `Map`-based dedup satisfies: keep the head, drop
later elements with the same key. -/
theorem dedupeByKey_cons {α β : Type} [DecidableEq β] (key : α → β) (c : α)
    (rest : List α) :
    dedupeByKey key (c :: rest) =
      c :: dedupeByKey key (rest.filter (fun d => key d ≠ key c)) := by
  simp only [dedupeByKey, List.length_cons, dedupeGo]
  rw [dedupeGo_fuel key (rest.filter (fun d => key d ≠ key c)).length _ rest.length
    (rest.length_filter_le _) (Nat.le_refl _)]

namespace ApiRoute

/-- The filtered lines of the log, reversed (most recent first), restricted
to pattern matches; a line's index here is the `recency` its candidate gets.
(The route increments `recency` only when a candidate is pushed, so the
candidates are exactly this list enumerated.) -/
def matchedRev (logText : String) : List String :=
  ((((splitOnChar '\n' logText.toList).map
      (fun l => normalizeLogLine ⟨l⟩)).filter isUsefulLogLine).reverse).filter
    matchesApiPattern

/-- The candidate list of `extractErrorHighlights`. -/
def candidatesOf (logText : String) : List Candidate :=
  (matchedRev logText).enum.map (fun p => ⟨p.2, scoreLogLine p.2, p.1⟩)

/-- `extractErrorHighlights` from the `/api/history` route: sort candidates
by (score descending, recency ascending), deduplicate by line keeping the
first occurrence, return the top `limit` lines. -/
def extractErrorHighlights (logText : String) (limit : Nat) : List String :=
  ((dedupeByKey Candidate.line
      (List.insertionSort candRel (candidatesOf logText))).take limit).map
    Candidate.line

end ApiRoute

/-! ### Job / conclusion data model -/

/-- Workflow-run / job / step conclusions (the non-null GitHub values). -/
inductive Concl
  | success
  | failure
  | neutral
  | cancelled
  | skipped
  | timed_out
  | action_required
  | stale
  | startup_failure
deriving DecidableEq, Repr

/-- `failureConclusions` (same set literal in `convex/history.ts`,
`convex/alerts.ts` and the `/api/history` route).  A `null` conclusion is
looked up as `""` (`conclusion ?? ""`), which is not in the set. -/
def conclIsFailure : Option Concl → Bool
  | some .failure => true
  | some .timed_out => true
  | some .cancelled => true
  | some .action_required => true
  | some .startup_failure => true
  | _ => false

/-- One entry of `job.steps`. -/
structure Step where
  name : String
  conclusion : Option Concl
  number : Int
deriving DecidableEq, Repr

/-- One entry of `JobsPayload.jobs`. -/
structure Job where
  id : Int
  name : String
  conclusion : Option Concl
  steps : Option (List Step)
deriving DecidableEq, Repr

/-- Render a conclusion the way JS string interpolation renders it
(`null` prints as `"null"`). -/
def conclText : Option Concl → String
  | none => "null"
  | some .success => "success"
  | some .failure => "failure"
  | some .neutral => "neutral"
  | some .cancelled => "cancelled"
  | some .skipped => "skipped"
  | some .timed_out => "timed_out"
  | some .action_required => "action_required"
  | some .stale => "stale"
  | some .startup_failure => "startup_failure"

/-- `getFailedStep` (the `/api/history` route; `convex/history.ts` inlines
the same expression): first step with a failure-set conclusion, else first
step with conclusion `failure`. -/
def getFailedStep (job : Job) : Option Step :=
  match job.steps with
  | none => none
  | some steps =>
    (steps.find? (fun step => conclIsFailure step.conclusion)) <|>
      (steps.find? (fun step => step.conclusion = some .failure))

/-! ### Point deduplication (`normalizeText` / `normalizeMessageCore` /
`dedupePoints`, `/api/history` route) -/

/-- The whitespace-run collapse of `normalizeText` (`.replace(/\s+/g, " ")`),
on a length bound for kernel evaluation (every step consumes ≥ 1 char). -/
def collapseWsGo : Nat → List Char → List Char
  | 0, _ => []
  | _, [] => []
  | fuel + 1, c :: rest =>
    if jsIsSpace c then ' ' :: collapseWsGo fuel (rest.dropWhile jsIsSpace)
    else c :: collapseWsGo fuel rest

/-- Collapse every whitespace run to a single space. -/
def collapseWs (l : List Char) : List Char :=
  collapseWsGo l.length l

/-- `normalizeText(value)` = `value.trim().replace(/\s+/g, " ").toLowerCase()`. -/
def normalizeText (value : String) : String :=
  ⟨(collapseWs (jsTrimChars value.toList)).map Char.toLower⟩

/-- JS `"s".split(sep)` for the two-character separator `": "` used by
`normalizeMessageCore` (non-overlapping, left to right, empties kept), on a
length bound for kernel evaluation (every step consumes ≥ 1 char). -/
def splitCSGo : Nat → List Char → List (List Char)
  | 0, _ => [[]]
  | _, [] => [[]]
  | fuel + 1, c :: rest =>
    if c = ':' ∧ rest.head? = some ' ' then
      [] :: splitCSGo fuel rest.tail
    else
      match splitCSGo fuel rest with
      | [] => [[c]]
      | h :: t => (c :: h) :: t

/-- Split on the separator `": "`. -/
def splitOnColonSpace (l : List Char) : List (List Char) :=
  splitCSGo l.length l

/-- `normalizeMessageCore`: normalize, split on `": "`, and drop the first
segment when there are at least two (rejoining the rest with `": "` strips
one leading `"prefix: "` segment). -/
def normalizeMessageCore (value : String) : String :=
  let normalized := normalizeText value
  let parts := splitOnColonSpace normalized.toList
  if parts.length < 2 then normalized
  else ⟨((parts.drop 1).intersperse (':' :: ' ' :: [])).flatten⟩

/-- `dedupePoints(summary, points)`: drop duplicate points (keeping first
occurrences, JS `Set` order), then drop every point that is equal to or a
substring of the summary after normalization, or after additionally
stripping a leading `"prefix: "` segment from each side. -/
def dedupePoints (summary : String) (points : List String) : List String :=
  let summaryNorm := normalizeText summary
  let summaryCoreNorm := normalizeMessageCore summary
  (dedupeByKey id points).filter (fun point =>
    let pointNorm := normalizeText point
    let pointCoreNorm := normalizeMessageCore point
    pointNorm ≠ summaryNorm &&
    !listContains pointNorm.toList summaryNorm.toList &&
    pointCoreNorm ≠ summaryCoreNorm &&
    !listContains pointCoreNorm.toList summaryCoreNorm.toList)

/-! ### Capture-group matchers for the dbt diagnostics regexes -/

/-- Case-insensitive literal consumption preserving the original characters
of the remainder (`p` written lowercase): the capture groups below must
return original-case text. -/
def ciDropLit : List Char → List Char → Option (List Char)
  | [], l => some l
  | _ :: _, [] => none
  | p :: ps, c :: cs => if Char.toLower c = p then ciDropLit ps cs else none

theorem ciDropLit_length {p l r : List Char} (h : ciDropLit p l = some r) :
    r.length + p.length = l.length := by
  induction p generalizing l with
  | nil => cases h; simp
  | cons q qs ih =>
    match l with
    | [] => cases h
    | c :: cs =>
      have h0 : (if Char.toLower c = q then ciDropLit qs cs else none) = some r := h
      by_cases hq : Char.toLower c = q
      · rw [if_pos hq] at h0
        have := ih h0
        simp only [List.length_cons]
        omega
      · rw [if_neg hq] at h0; cases h0

/-- Consume one optional leading single quote (the `'?` pieces of the model
pattern; greedy, and no backtracking can help since `'` is not a word
character). -/
def dropQuote : List Char → List Char
  | '\'' :: rest => rest
  | l => l

theorem dropQuote_length (l : List Char) : (dropQuote l).length ≤ l.length := by
  unfold dropQuote
  split <;> simp

/-- Match `\s+'?([a-zA-Z0-9_]+)'?` at the head of `r`, returning the capture
and the remainder after the whole match. -/
def modelSuffix (r : List Char) : Option (String × List Char) :=
  if (r.takeWhile jsIsSpace).isEmpty then none
  else
    if ((dropQuote (r.drop (r.takeWhile jsIsSpace).length)).takeWhile isWordChar).isEmpty then
      none
    else
      some (⟨(dropQuote (r.drop (r.takeWhile jsIsSpace).length)).takeWhile isWordChar⟩,
        dropQuote ((dropQuote (r.drop (r.takeWhile jsIsSpace).length)).drop
          ((dropQuote (r.drop (r.takeWhile jsIsSpace).length)).takeWhile isWordChar).length))

theorem modelSuffix_length {r : List Char} {n : String} {r4 : List Char}
    (h : modelSuffix r = some (n, r4)) : r4.length < r.length := by
  unfold modelSuffix at h
  split_ifs at h with h1 h2
  have hws : 1 ≤ (r.takeWhile jsIsSpace).length := by
    cases hx : r.takeWhile jsIsSpace with
    | nil => rw [hx] at h1; simp at h1
    | cons a as => simp [hx]
  have hwsle : (r.takeWhile jsIsSpace).length ≤ r.length := (r.takeWhile_sublist _).length_le
  set r1 := r.drop (r.takeWhile jsIsSpace).length with hr1
  have hr1len : r1.length = r.length - (r.takeWhile jsIsSpace).length := by
    rw [hr1]; simp
  have hr2 : (dropQuote r1).length ≤ r1.length := dropQuote_length r1
  set r2 := dropQuote r1 with hr2def
  have hw : 1 ≤ (r2.takeWhile isWordChar).length := by
    cases hx : r2.takeWhile isWordChar with
    | nil => rw [hx] at h2; simp at h2
    | cons a as => simp [hx]
  have hwle : (r2.takeWhile isWordChar).length ≤ r2.length := (r2.takeWhile_sublist _).length_le
  have h3 : (r2.drop (r2.takeWhile isWordChar).length).length
      = r2.length - (r2.takeWhile isWordChar).length := by simp
  have h4 : (dropQuote (r2.drop (r2.takeWhile isWordChar).length)).length
      ≤ (r2.drop (r2.takeWhile isWordChar).length).length :=
    dropQuote_length _
  have hr4 : r4 = dropQuote (r2.drop (r2.takeWhile isWordChar).length) := by
    have := h
    simp only [Option.some.injEq, Prod.mk.injEq] at this
    exact this.2.symm
  rw [hr4]
  omega

/-- First alternative of the model pattern: `Error \d+ in model`. -/
def modelAlt1 (l : List Char) : Option (List Char) :=
  match ciDropLit "error ".toList l with
  | none => none
  | some r1 =>
    if (r1.takeWhile isDigitChar).isEmpty then none
    else ciDropLit " in model".toList (r1.drop (r1.takeWhile isDigitChar).length)

/-- Second alternative: `First error in model`. -/
def modelAlt2 (l : List Char) : Option (List Char) :=
  ciDropLit "first error in model".toList l

/-- Third alternative: `Database Error in model`. -/
def modelAlt3 (l : List Char) : Option (List Char) :=
  ciDropLit "database error in model".toList l

/-- Run `modelSuffix` on the remainder of a successful alternative. -/
def altSuffix (o : Option (List Char)) : Option (String × List Char) :=
  match o with
  | some r => modelSuffix r
  | none => none

/-- Try to match
`(?:Error \d+ in model|First error in model|Database Error in model)\s+'?([a-zA-Z0-9_]+)'?`
at the head of `l`, returning the captured model name and the remainder
after the match (alternatives tried left to right, as JS does). -/
def modelNameAt (l : List Char) : Option (String × List Char) :=
  altSuffix (modelAlt1 l) <|> altSuffix (modelAlt2 l) <|> altSuffix (modelAlt3 l)

theorem modelAlt1_length {l r : List Char} (h : modelAlt1 l = some r) :
    r.length ≤ l.length := by
  unfold modelAlt1 at h
  rcases h1 : ciDropLit "error ".toList l with _ | r1
  · rw [h1] at h; cases h
  · rw [h1] at h
    have h' : (if (r1.takeWhile isDigitChar).isEmpty = true then none
        else ciDropLit " in model".toList
          (r1.drop (r1.takeWhile isDigitChar).length)) = some r := h
    have hl1 := ciDropLit_length h1
    by_cases hd : (r1.takeWhile isDigitChar).isEmpty = true
    · rw [if_pos hd] at h'; cases h'
    · rw [if_neg hd] at h'
      have hl2 := ciDropLit_length h'
      have : (r1.drop (r1.takeWhile isDigitChar).length).length ≤ r1.length := by simp
      omega

theorem altSuffix_length {o : Option (List Char)} {n : String} {r : List Char}
    (ho : ∀ r', o = some r' → r'.length ≤ 0 + (o.getD []).length)
    (h : altSuffix o = some (n, r)) : r.length < (o.getD []).length := by
  rcases o with _ | r'
  · cases h
  · exact modelSuffix_length h

theorem modelNameAt_length {l : List Char} {n : String} {r : List Char}
    (h : modelNameAt l = some (n, r)) : r.length < l.length := by
  unfold modelNameAt at h
  rcases h1 : altSuffix (modelAlt1 l) with _ | v
  · rw [h1, Option.none_orElse] at h
    rcases h2 : altSuffix (modelAlt2 l) with _ | v
    · rw [h2, Option.none_orElse] at h
      rcases h3 : modelAlt3 l with _ | r3
      · rw [h3] at h; cases h
      · rw [h3] at h
        have : r.length < r3.length := modelSuffix_length h
        have hlen := ciDropLit_length h3
        omega
    · rw [h2, Option.some_orElse] at h
      cases h
      rcases h2' : modelAlt2 l with _ | r2
      · rw [h2'] at h2; cases h2
      · rw [h2'] at h2
        have := modelSuffix_length h2
        have hlen := ciDropLit_length h2'
        omega
  · rw [h1, Option.some_orElse] at h
    cases h
    rcases h1' : modelAlt1 l with _ | r1
    · rw [h1'] at h1; cases h1
    · rw [h1'] at h1
      have := modelSuffix_length h1
      have hlen := modelAlt1_length h1'
      omega

/-- The scan of `line.matchAll(modelPattern)`, collecting the capture of
every (non-overlapping, left-to-right) match — scanning resumes after each
match, exactly as a global JS regex advances `lastIndex`.  Recursion is on a
length bound for kernel evaluation; `modelNameAt_length` shows each step
consumes at least one character, so `fuel = l.length` never runs out. -/
def modelScan : Nat → List Char → List String
  | 0, _ => []
  | _, [] => []
  | fuel + 1, c :: rest =>
    match modelNameAt (c :: rest) with
    | some (name, r) => name :: modelScan fuel r
    | none => modelScan fuel rest

/-- All model-name captures of one line. -/
def modelMatchesAux (l : List Char) : List String :=
  modelScan l.length l

/-- First match of a non-global regex: try the matcher at each start
position, left to right (JS `String.prototype.match`). -/
def scanFirst {α : Type} (f : List Char → Option α) : List Char → Option α
  | [] => f []
  | c :: rest => f (c :: rest) <|> scanFirst f rest

/-- Match `/Warning in test\s+([a-zA-Z0-9_]+)/i` at the head of `l`,
returning the captured test name. -/
def warningTestAt (l : List Char) : Option String :=
  match ciDropLit "warning in test".toList l with
  | none => none
  | some r =>
    if (r.takeWhile jsIsSpace).isEmpty then none
    else
      let w := (r.drop (r.takeWhile jsIsSpace).length).takeWhile isWordChar
      if w.isEmpty then none else some ⟨w⟩

/-- Match `\s+([^\n]+)` at the head of `r` and return the capture.  The
greedy `\s+` takes the maximal whitespace run when a non-whitespace
character follows; when the input ends in whitespace it backtracks to the
last non-newline whitespace character, which then becomes the (one-character)
capture — provided at least one whitespace character still precedes it. -/
def wsCap (r : List Char) : Option (List Char) :=
  let ws := r.takeWhile jsIsSpace
  if ws.isEmpty then none
  else
    let rest0 := r.drop ws.length
    if !rest0.isEmpty then some (rest0.takeWhile (fun c => c ≠ '\n'))
    else
      match ws.reverse.dropWhile (fun c => c = '\n') with
      | [] => none
      | c :: pre => if pre.isEmpty then none else some [c]

/-- Match `/Got\s+(\d+)\s+results,\s+configured to warn if\s+([^\n]+)/i` at
the head of `l`, returning (digits capture, condition capture). -/
def warnThresholdAt (l : List Char) : Option (String × String) :=
  match ciDropLit "got".toList l with
  | none => none
  | some r0 =>
    if (r0.takeWhile jsIsSpace).isEmpty then none
    else
      let r1 := r0.drop (r0.takeWhile jsIsSpace).length
      let ds := r1.takeWhile isDigitChar
      if ds.isEmpty then none
      else
        let r2 := r1.drop ds.length
        if (r2.takeWhile jsIsSpace).isEmpty then none
        else
          match ciDropLit "results,".toList (r2.drop (r2.takeWhile jsIsSpace).length) with
          | none => none
          | some r3 =>
            if (r3.takeWhile jsIsSpace).isEmpty then none
            else
              match ciDropLit "configured to warn if".toList
                  (r3.drop (r3.takeWhile jsIsSpace).length) with
              | none => none
              | some r4 =>
                match wsCap r4 with
                | none => none
                | some cap => some (⟨ds⟩, ⟨cap⟩)

/-- Match `/system\$get_dbt_log\('([^']+)'\)/i` at the head of `l`,
returning the quoted capture. -/
def snowflakeAt (l : List Char) : Option String :=
  match ciDropLit "system$get_dbt_log('".toList l with
  | none => none
  | some r =>
    let cap := r.takeWhile (fun c => c ≠ '\'')
    if cap.isEmpty then none
    else
      match r.drop cap.length with
      | q :: p :: _ => if q = '\'' && p = ')' then some ⟨cap⟩ else none
      | _ => none

/-- JS `Set` insertion: append if not already present (keeps first-insertion
order, exactly `Array.from(set)`). -/
def addUnique [DecidableEq α] (acc : List α) (x : α) : List α :=
  if acc.contains x then acc else acc ++ [x]

/-- Collect all model-name captures of a list of lines into insertion order,
deduplicated (the `modelNames` `Set`). -/
def collectModelNames (highlights : List String) : List String :=
  highlights.foldl (fun acc l => (modelMatchesAux l.toList).foldl addUnique acc) []

/-- The `modelPart` sentence (identical string construction in
`parseDbtSummary` of `convex/history.ts` and `parseDbtDiagnostics` of the
`/api/history` route). -/
def modelPart (models : List String) : String :=
  if 0 < models.length then
    "Affects model" ++ (if 1 < models.length then "s" else "") ++ ": " ++
      String.intercalate ", " models ++ "."
  else "No model name was parsed from logs."

/-! ### Summarization — `/api/history` route -/

namespace ApiRoute

/-- `truncate(text, max = 180)`. -/
def truncate (text : String) (max : Nat := 180) : String :=
  if text.toList.length ≤ max then text
  else ⟨text.toList.take (max - 1) ++ ['…']⟩

/-- `parseDbtDiagnostics`: collect error-class flags over all highlight
lines (priority Database > Compilation > Runtime), plus up to 3 captured
model names. -/
def parseDbtDiagnostics (highlights : List String) : Option String :=
  let models := (collectModelNames highlights).take 3
  let errorType : Option String :=
    if highlights.any (fun l => ciHas "database error" l) then some "Database error"
    else if highlights.any (fun l => ciHas "compilation error" l) then some "Compilation error"
    else if highlights.any (fun l => ciHas "runtime error" l) then some "Runtime error"
    else none
  if errorType.isNone && models.isEmpty then none
  else some (errorType.getD "dbt error" ++ " in deployment. " ++ modelPart models)

/-- The operational-context result: `summaryNote` is `points[0] ?? null`. -/
structure DbtContext where
  summaryNote : Option String
  points : List String
deriving DecidableEq, Repr

/-- `parseDbtOperationalContext`: scan the joined highlights for
test-warning/threshold, Snowflake debug-log pointer and generic dbt-job
failure context. -/
def parseDbtOperationalContext (highlights : List String) : DbtContext :=
  let joined := String.intercalate "\n" highlights
  let testMatch := scanFirst warningTestAt joined.toList
  let warnThresholdMatch := scanFirst warnThresholdAt joined.toList
  let snowflakeLogMatch := scanFirst snowflakeAt joined.toList
  let hasDbtJobFailure := ciHas "dbt job failed" joined
  let points0 : List String :=
    match testMatch, warnThresholdMatch with
    | some t, some (n, cond) =>
      ["Test warning threshold exceeded: " ++ t ++ " returned " ++ n ++
        " rows (warn condition: " ++ cond ++ ")."]
    | some t, none => ["Test warning detected in " ++ t ++ "."]
    | none, _ => []
  let points1 := points0 ++
    (match snowflakeLogMatch with
     | some s =>
       ["Snowflake debug log is available via system$get_dbt_log('" ++ s ++ "')."]
     | none => [])
  let points :=
    if hasDbtJobFailure && points1.isEmpty then
      ["dbt Cloud reported a generic job failure before model-level diagnostics were emitted."]
    else points1
  ⟨points.head?, points⟩

/-- A `{summary, points}` pair. -/
structure FailureInsight where
  summary : String
  points : List String
deriving DecidableEq, Repr

/-- The strong-diagnostic test of `summarizeJobFailure`
(`/Database Error|Compilation Error|Runtime Error|Error in model|Error in test|SQL compilation error|Traceback|Exception/i`). -/
def hasStrongDiagnostic (highlights : List String) : Bool :=
  highlights.any (fun line =>
    ciHas "database error" line || ciHas "compilation error" line ||
    ciHas "runtime error" line || ciHas "error in model" line ||
    ciHas "error in test" line || ciHas "sql compilation error" line ||
    ciHas "traceback" line || ciHas "exception" line)

/-- `summarizeJobFailure` from the `/api/history` route. -/
def summarizeJobFailure (job : Job) (highlights : List String) : FailureInsight :=
  let failedStep := getFailedStep job
  if job.conclusion = some .cancelled && !hasStrongDiagnostic highlights then
    { summary :=
        match failedStep with
        | some st => job.name ++ ": job was cancelled while executing step " ++
            toString st.number ++ " (" ++ st.name ++ ")."
        | none => job.name ++ ": job was cancelled before completion."
      points := [] }
  else if 0 < highlights.length then
    let stepSuffix :=
      match failedStep with
      | some st => " (failed at step: " ++ st.name ++ ")"
      | none => ""
    let dbtSummary := parseDbtDiagnostics highlights
    let dbtContext := parseDbtOperationalContext highlights
    let summary :=
      match dbtSummary, dbtContext.summaryNote with
      | some ds, some note => job.name ++ stepSuffix ++ ": " ++ ds ++ " " ++ note
      | some ds, none => job.name ++ stepSuffix ++ ": " ++ ds
      | none, some note => job.name ++ stepSuffix ++ ": " ++ note
      | none, none => job.name ++ stepSuffix ++ ": " ++ truncate (highlights.headD "")
    { summary := summary
      points := dbtContext.points.map (fun p => job.name ++ ": " ++ truncate p) ++
        (highlights.take 2).map (fun h => job.name ++ ": " ++ truncate h) }
  else
    match failedStep with
    | none =>
      { summary := job.name ++ ": job conclusion was " ++ conclText job.conclusion ++ "."
        points := [job.name ++ ": job conclusion was " ++ conclText job.conclusion ++ "."] }
    | some st =>
      { summary := job.name ++ ": step #" ++ toString st.number ++ " (" ++ st.name ++
          ") ended with " ++ conclText st.conclusion ++ "."
        points := [job.name ++ ": step #" ++ toString st.number ++ " (" ++ st.name ++
          ") ended with " ++ conclText st.conclusion ++ "."] }

/-- `getJobFailureHighlights`: fetch one job log (`logs` is the oracle for
the log-fetch network call; `.error` models a thrown fetch error), keep the
last 120 000 characters, extract up to 6 highlights. -/
def getJobFailureHighlights (logs : Int → Except String String) (jobId : Int) :
    Except String (List String) :=
  match logs jobId with
  | .error e => .error e
  | .ok rawLog =>
    .ok (extractErrorHighlights ⟨rawLog.toList.drop (rawLog.toList.length - 120000)⟩ 6)

/-- `buildFailureSummary`: inspect (at most) the first 2 failed jobs, catch
log-fetch failures per job (degrading to empty highlights), aggregate and
deduplicate points, and dedupe points against the chosen summary. -/
def buildFailureSummary (logs : Int → Except String String) (jobs : List Job) :
    FailureInsight :=
  let failedJobs := jobs.filter (fun job => conclIsFailure job.conclusion)
  if failedJobs.isEmpty then
    { summary := "Run did not succeed, but no failed job details were returned by GitHub."
      points := [] }
  else
    let inspectJobs := failedJobs.take 2
    let insights := inspectJobs.map (fun job =>
      match getJobFailureHighlights logs job.id with
      | .ok highlights => summarizeJobFailure job highlights
      | .error _ => summarizeJobFailure job [])
    let points := (dedupeByKey id ((insights.map FailureInsight.points).flatten)).take 4
    let extraJobs := failedJobs.length - inspectJobs.length
    let summaryBase := (insights.head?.map FailureInsight.summary).getD
      "Workflow failed with no details."
    let summary :=
      if failedJobs.length = 1 then summaryBase
      else toString failedJobs.length ++ " jobs failed. Primary issue: " ++ summaryBase ++
        (if 0 < extraJobs then
          " (+" ++ toString extraJobs ++ " more failed job" ++
            (if 1 < extraJobs then "s" else "") ++ ")"
         else "")
    { summary := summary, points := dedupePoints summary points }

end ApiRoute

/-! ### Summarization — `convex/history.ts` -/

namespace History

/-- `parseDbtSummary`: like the route version but the error class is chosen
by the first matching line in scan order (sequential `if (!errorType && …)`
updates), not by global priority. -/
def parseDbtSummary (highlights : List String) : Option String :=
  let errorType := highlights.foldl
    (fun st line =>
      match st with
      | some e => some e
      | none =>
        if ciHas "database error" line then some "Database error"
        else if ciHas "compilation error" line then some "Compilation error"
        else if ciHas "runtime error" line then some "Runtime error"
        else none)
    (none : Option String)
  let models := (collectModelNames highlights).take 3
  if errorType.isNone && models.isEmpty then none
  else some (errorType.getD "dbt error" ++ " in deployment. " ++ modelPart models)

/-- `summarizeFailure` from `convex/history.ts`.  Unlike the route version
it applies no truncation and no dedup-against-summary; in the
no-highlights branches the single returned point IS the summary string. -/
def summarizeFailure (job : Job) (highlights : List String) : ApiRoute.FailureInsight :=
  let failedStep := getFailedStep job
  if job.conclusion = some .cancelled && highlights.length = 0 then
    { summary :=
        match failedStep with
        | some st => job.name ++ ": job was cancelled while executing step " ++
            toString st.number ++ " (" ++ st.name ++ ")."
        | none => job.name ++ ": job was cancelled before completion."
      points := [] }
  else if 0 < highlights.length then
    let stepSuffix :=
      match failedStep with
      | some st => " (failed at step: " ++ st.name ++ ")"
      | none => ""
    let summary :=
      match parseDbtSummary highlights with
      | some ds => job.name ++ stepSuffix ++ ": " ++ ds
      | none => job.name ++ stepSuffix ++ ": " ++ highlights.headD ""
    { summary := summary
      points := (highlights.take 3).map (fun line => job.name ++ ": " ++ line) }
  else
    match failedStep with
    | some st =>
      { summary := job.name ++ ": step #" ++ toString st.number ++ " (" ++ st.name ++
          ") ended with " ++ conclText st.conclusion ++ "."
        points := [job.name ++ ": step #" ++ toString st.number ++ " (" ++ st.name ++
          ") ended with " ++ conclText st.conclusion ++ "."] }
    | none =>
      { summary := job.name ++ ": job conclusion was " ++ conclText job.conclusion ++ "."
        points := [job.name ++ ": job conclusion was " ++ conclText job.conclusion ++ "."] }

end History

/-! ### Convex store data model (`convex/schema.ts`)

JS numbers are embedded as `Int`; `Date` parsing is an explicit
`String → Option Int` parameter (`none` = `NaN`).  A Convex table is a list
of documents; `.unique()` lookups are embedded as first-match `find?` (the
store keeps at most one document per lookup key through the code paths
modelled here). -/

/-- `status` ∈ {queued, in_progress, completed}. -/
inductive RunStatus
  | queued
  | in_progress
  | completed
deriving DecidableEq, Repr

/-- One document of the `runs` table (the `runArgs` validator of
`convex/internalHistory.ts`). -/
structure RunRecord where
  runId : Int
  name : String
  workflowName : String
  branch : String
  event : String
  status : RunStatus
  conclusion : Option Concl
  url : String
  actor : String
  runNumber : Int
  prNumbers : List Int
  createdAt : String
  updatedAt : String
  startedAt : String
  updatedAtMs : Int
  durationMs : Int
  failureSummary : Option String
  failurePoints : Option (List String)
deriving DecidableEq, Repr

/-- One document of the `syncState` table. -/
structure SyncStateRec where
  key : String
  owner : String
  repo : String
  lastSyncMs : Int
  lastSyncedAt : Option String
  lastError : Option String
deriving DecidableEq, Repr

/-- Alert delivery channels (`v.union(v.literal("teams"), v.literal("teams_pull"))`). -/
inductive AlertChannel
  | teams
  | teams_pull
deriving DecidableEq, Repr

/-- One document of the `alertsSent` table. -/
structure AlertRec where
  runId : Int
  workflowName : String
  channel : AlertChannel
  sentAt : String
deriving DecidableEq, Repr

/-- The Convex database state. -/
structure DB where
  runs : List RunRecord
  syncState : List SyncStateRec
  alertsSent : List AlertRec
deriving DecidableEq, Repr

/-- Replace the first document matching `p` (Convex `db.patch` on the
document found by a `.unique()` index lookup). -/
def patchFirst {α : Type} (p : α → Bool) (f : α → α) : List α → List α
  | [] => []
  | x :: rest => if p x then f x :: rest else x :: patchFirst p f rest

/-- Descending sort by an integer key: embeds
`.sort((a, b) => keyB - keyA)` and the descending index order of the store.
The comparator is a total preorder, so insertion sort produces a correctly
sorted permutation just as the JS runtime does. -/
def sortDescBy {α : Type} (key : α → Int) (l : List α) : List α :=
  List.insertionSort (fun a b => key b ≤ key a) l

instance sortDescByDec {α : Type} (key : α → Int) :
    DecidableRel (fun a b : α => key b ≤ key a) :=
  fun _ _ => Int.decLe _ _

namespace InternalHistory

/-- `arraysEqual` from `convex/internalHistory.ts`: missing arrays default to
`[]`, then order-sensitive element-wise comparison. -/
def arraysEqual {α : Type} [DecidableEq α] (a b : Option (List α)) : Bool :=
  let left := a.getD []
  let right := b.getD []
  left.length == right.length && (List.zip left right).all (fun p => p.1 == p.2)

/-- `hasMeaningfulRunChange`: `true` when there is no existing record, or
when any tracked field differs (arrays compared with `arraysEqual`,
`failureSummary` with absent normalized to `undefined`). -/
def hasMeaningfulRunChange (existing : Option RunRecord) (args : RunRecord) : Bool :=
  match existing with
  | none => true
  | some e =>
    e.name != args.name ||
    e.workflowName != args.workflowName ||
    e.branch != args.branch ||
    e.event != args.event ||
    e.status != args.status ||
    e.conclusion != args.conclusion ||
    e.url != args.url ||
    e.actor != args.actor ||
    e.runNumber != args.runNumber ||
    e.createdAt != args.createdAt ||
    e.updatedAt != args.updatedAt ||
    e.startedAt != args.startedAt ||
    e.updatedAtMs != args.updatedAtMs ||
    e.durationMs != args.durationMs ||
    e.failureSummary != args.failureSummary ||
    !arraysEqual (some e.prNumbers) (some args.prNumbers) ||
    !arraysEqual e.failurePoints args.failurePoints

/-- `getSyncState` internal query. -/
def getSyncState (db : DB) (key : String) : Option SyncStateRec :=
  db.syncState.find? (fun s => s.key == key)

/-- `setSyncState` internal mutation: patch the existing document for `key`
or insert a new one. -/
def setSyncState (db : DB) (key owner repo : String) (lastSyncMs : Int)
    (lastSyncedAt lastError : Option String) : DB :=
  match db.syncState.find? (fun s => s.key == key) with
  | some _ =>
    { db with
      syncState := patchFirst (fun s => s.key == key)
        (fun s => { s with
          owner := owner
          repo := repo
          lastSyncMs := lastSyncMs
          lastSyncedAt := lastSyncedAt
          lastError := lastError })
        db.syncState }
  | none =>
    { db with
      syncState := db.syncState ++
        [{ key := key, owner := owner, repo := repo, lastSyncMs := lastSyncMs,
           lastSyncedAt := lastSyncedAt, lastError := lastError }] }

/-- `upsertRun` internal mutation: change-detected insert-or-patch, reports
whether a write happened. -/
def upsertRun (db : DB) (args : RunRecord) : DB × Bool :=
  let existing := db.runs.find? (fun r => r.runId == args.runId)
  if !hasMeaningfulRunChange existing args then (db, false)
  else
    match existing with
    | some _ =>
      ({ db with runs := patchFirst (fun r => r.runId == args.runId) (fun _ => args) db.runs },
        true)
    | none => ({ db with runs := db.runs ++ [args] }, true)

/-- One iteration of the `upsertRunsBatch` loop: change-detected
insert-or-patch against the current store, incrementing the changed count on
a write. -/
def upsertStep (st : DB × Nat) (run : RunRecord) : DB × Nat :=
  let existing := st.1.runs.find? (fun r => r.runId == run.runId)
  if !hasMeaningfulRunChange existing run then st
  else
    match existing with
    | some _ =>
      ({ st.1 with
          runs := patchFirst (fun r => r.runId == run.runId) (fun _ => run) st.1.runs },
        st.2 + 1)
    | none => ({ st.1 with runs := st.1.runs ++ [run] }, st.2 + 1)

/-- `upsertRunsBatch` internal mutation: sequential change-detected upserts,
returning the count of records actually written. -/
def upsertRunsBatch (db : DB) (runs : List RunRecord) : DB × Nat :=
  runs.foldl upsertStep (db, 0)

/-- `getNonCompletedRuns` internal query: queued rows and in-progress rows
(each most-recent-first, bounded), merged, re-sorted descending, capped. -/
def getNonCompletedRuns (db : DB) (limitArg : Option Int) : List RunRecord :=
  let limit := min 300 (max 1 (limitArg.getD 120))
  let queuedRows :=
    (sortDescBy (fun r => r.updatedAtMs)
      (db.runs.filter (fun r => r.status == RunStatus.queued))).take limit.toNat
  let inProgressRows :=
    (sortDescBy (fun r => r.updatedAtMs)
      (db.runs.filter (fun r => r.status == RunStatus.in_progress))).take limit.toNat
  (sortDescBy (fun r => r.updatedAtMs) (queuedRows ++ inProgressRows)).take limit.toNat

end InternalHistory

/-! ### Sync engine (`convex/history.ts` `syncGithub`)

Network calls are suspension points whose results are oracle parameters: the
bulk run-list fetch, the per-run refresh (where `.ok none` is the
404-deleted case that `fetchWorkflowRun` converts to `null`), the jobs fetch
and the log fetch.  `.error` models a thrown `GitHub API …` error.  Clock
reads are explicit (`now` at the throttle check, `endMs`/`endIso` when
persisting SyncState).  The missing-credential throw happens before any of
this and is not modelled. -/

/-- A run as returned by the upstream `workflow_runs` API. -/
structure WorkflowRun where
  id : Int
  name : String
  display_title : String
  path : Option String
  head_branch : String
  event : String
  status : RunStatus
  conclusion : Option Concl
  html_url : String
  actor : Option String
  run_number : Int
  pull_requests : List (Option Int)
  head_commit : Option (Option String)
  created_at : String
  updated_at : String
  run_started_at : Option String
deriving DecidableEq, Repr

/-- `jobs` payload of the per-run jobs endpoint. -/
structure JobsPayload where
  jobs : List Job
deriving DecidableEq, Repr

/-- The upstream fetch oracles. -/
structure Upstream where
  bulk : Option String → Int → Except String (List WorkflowRun)
  byId : Int → Except String (Option WorkflowRun)
  jobs : Int → Except String JobsPayload
  logs : Int → Except String String

/-- Explicit clock readings of one sync pass. -/
structure Clock where
  now : Int
  endMs : Int
  endIso : String

/-- The host `Date` functions: `parse s = none` models `NaN`; `isoOf` is
`new Date(ms).toISOString()`. -/
structure JsDate where
  parse : String → Option Int
  isoOf : Int → String

/-- Arguments of the `syncGithub` action. -/
structure SyncArgs where
  since : Option String
  maxRuns : Option Int
  detailsLimit : Option Int
  minIntervalMs : Option Int
deriving Repr

/-- Return value of `syncGithub` (skip result or sync summary). -/
inductive SyncResult
  | skipped (reason : String) (lastSyncedAt : Option String)
  | synced (synced refreshedInProgress : Nat)
deriving DecidableEq, Repr

/-- One sync pass: final store state, returned value or re-thrown error, and
the number of upstream requests issued (the bulk page loop counts as one). -/
structure SyncOutcome where
  db : DB
  result : Except String SyncResult
  fetches : Nat
deriving Repr

namespace History

/-- `parseDurationMs` (identical in `convex/history.ts` and the
`/api/history` route): 0 when either timestamp is `NaN`, else the
difference clamped to 0. -/
def parseDurationMs (parse : String → Option Int) (startedAt updatedAt : String) : Int :=
  match parse startedAt, parse updatedAt with
  | some s, some e => max 0 (e - s)
  | _, _ => 0

/-- `resolveRunTitle`: first nonempty trimmed line of the head-commit
message, else `display_title || name`. -/
def resolveRunTitle (run : WorkflowRun) : String :=
  let commitSubject :=
    match run.head_commit with
    | some (some msg) =>
      ((splitOnChar '\n' msg.toList).map jsTrimChars).find? (fun l => 0 < l.length)
    | _ => none
  match commitSubject with
  | some l => ⟨l⟩
  | none => if run.display_title ≠ "" then run.display_title else run.name

/-- `fallbackWorkflowName`: file name of the workflow path with one `.yml`
and one `.yaml` occurrence removed. -/
def fallbackWorkflowName (path : Option String) : String :=
  match path with
  | none => "Unknown workflow"
  | some p =>
    if p = "" then "Unknown workflow"
    else
      let fileName := ((splitOnChar '/' p.toList).getLastD [])
      ⟨replaceFirst ".yaml".toList (replaceFirst ".yml".toList fileName)⟩

/-- Shape test for `/^PR\s*#\d+$/i` on the trimmed, lowercased name. -/
def prHashShape (l : List Char) : Bool :=
  match l with
  | 'p' :: 'r' :: rest =>
    match rest.dropWhile jsIsSpace with
    | '#' :: ds => !ds.isEmpty && ds.all isDigitChar
    | _ => false
  | _ => false

/-- `normalizeWorkflowName`: rename `PR #N`-shaped names to `CodeRabbit QA`. -/
def normalizeWorkflowName (name : String) : String :=
  if prHashShape ((jsTrimChars name.toList).map Char.toLower) then "CodeRabbit QA"
  else name

/-- The base `RunRecord` built for one merged run (before enrichment).
`updatedAtMs` reads `getTime()` with `NaN` defaulted to 0 — GitHub
timestamps always parse, and the change-detection/idempotence claims treat
field equality over parseable values. -/
def buildBaseRecord (J : JsDate) (run : WorkflowRun) : RunRecord :=
  let startedAt := run.run_started_at.getD run.created_at
  { runId := run.id
    name := resolveRunTitle run
    workflowName := normalizeWorkflowName
      (if run.name ≠ "" then run.name else fallbackWorkflowName run.path)
    branch := run.head_branch
    event := run.event
    status := run.status
    conclusion := run.conclusion
    url := run.html_url
    actor := run.actor.getD "unknown"
    runNumber := run.run_number
    prNumbers := run.pull_requests.filterMap id
    createdAt := run.created_at
    updatedAt := run.updated_at
    startedAt := startedAt
    updatedAtMs := (J.parse run.updated_at).getD 0
    durationMs := parseDurationMs J.parse startedAt run.updated_at
    failureSummary := none
    failurePoints := none }

/-- Failure enrichment for one completed non-success run within the details
limit: fetch jobs (a thrown error degrades to the placeholder summary), pick
the first failed job, fetch its log (a thrown error degrades to empty
highlights), summarize.  Returns the enriched record and the number of
upstream requests used. -/
def enrichRecord (U : Upstream) (base : RunRecord) (run : WorkflowRun) : RunRecord × Nat :=
  match U.jobs run.id with
  | .error _ =>
    ({ base with failureSummary := some "Failed to load detailed failure info for this run." },
      1)
  | .ok payload =>
    match payload.jobs.filter (fun j => conclIsFailure j.conclusion) with
    | [] => (base, 1)
    | job :: _ =>
      let highlights :=
        match U.logs job.id with
        | .error _ => []
        | .ok logText =>
          extractErrorHighlights ⟨logText.toList.drop (logText.toList.length - 120000)⟩
      let failure := summarizeFailure job highlights
      ({ base with
          failureSummary := some failure.summary
          failurePoints := some failure.points },
        2)

/-- The JS `Map.set`: overwrite the value of an existing key in place, else
append.  Keys stay unique. -/
def mapSet (m : List (Int × WorkflowRun)) (k : Int) (v : WorkflowRun) :
    List (Int × WorkflowRun) :=
  if m.any (fun p => p.1 == k) then m.map (fun p => if p.1 == k then (k, v) else p)
  else m ++ [(k, v)]

/-- The merge map of one sync pass: bulk-pass runs inserted first, then the
tail-repair (refreshed non-completed) runs, so tail-repair entries win on id
conflicts. -/
def mergedPairs (bulkRuns refreshed : List WorkflowRun) : List (Int × WorkflowRun) :=
  refreshed.foldl (fun m r => mapSet m r.id r)
    (bulkRuns.foldl (fun m r => mapSet m r.id r) [])

/-- `mergedRuns`: the merge-map values sorted by `updated_at` descending
(`getTime()` with unparseable dates read as 0; upstream timestamps always
parse). -/
def mergedRunsOf (J : JsDate) (bulkRuns refreshed : List WorkflowRun) : List WorkflowRun :=
  sortDescBy (fun r => (J.parse r.updated_at).getD 0)
    ((mergedPairs bulkRuns refreshed).map Prod.snd)

/-- The tail-repair refresh loop over the non-completed runs: re-fetch each
by id, drop 404s silently, abort (re-throw) on any other error.  Also counts
requests. -/
def refreshLoop (U : Upstream) (acc : List WorkflowRun) (n : Nat) :
    List RunRecord → Except String (List WorkflowRun) × Nat
  | [] => (.ok acc, n)
  | r :: rest =>
    match U.byId r.runId with
    | .error e => (.error e, n + 1)
    | .ok none => refreshLoop U acc (n + 1) rest
    | .ok (some run) => refreshLoop U (acc ++ [run]) (n + 1) rest

/-- One iteration of the record-building loop: append the (possibly
enriched) record for the merged run at position `p.1`, accumulating the
enrichment request count. -/
def recordStep (J : JsDate) (U : Upstream) (detailsLimit : Int)
    (st : List RunRecord × Nat) (p : Nat × WorkflowRun) : List RunRecord × Nat :=
  let base := buildBaseRecord J p.2
  if p.2.status == RunStatus.completed && p.2.conclusion != some Concl.success &&
      decide ((p.1 : Int) < detailsLimit) then
    let enriched := enrichRecord U base p.2
    (st.1 ++ [enriched.1], st.2 + enriched.2)
  else (st.1 ++ [base], st.2)

/-- Build the `runsToUpsert` list: one record per merged run (in order),
with failure enrichment for completed non-success runs at positions below
`detailsLimit`.  Also counts enrichment requests. -/
def recordsOf (J : JsDate) (U : Upstream) (detailsLimit : Int)
    (merged : List WorkflowRun) : List RunRecord × Nat :=
  merged.enum.foldl (recordStep J U detailsLimit) ([], 0)

/-- The body of a sync pass after the throttle check: fetch, tail-repair,
merge, build records, upsert in batches of 200, persist SyncState (on
failure: record the error and re-throw). -/
def syncBody (J : JsDate) (U : Upstream) (C : Clock) (owner repo : String)
    (args : SyncArgs) (db : DB) (state : Option SyncStateRec) : SyncOutcome :=
  let key := owner ++ "/" ++ repo
  let maxRuns := min 2000 (max 100 (args.maxRuns.getD 1200))
  let detailsLimit := min 400 (max 0 (args.detailsLimit.getD 120))
  let effectiveSince : Option String :=
    match args.since with
    | some s => some s
    | none =>
      match state with
      | some st =>
        (st.lastSyncedAt.map (fun t => J.isoOf ((J.parse t).getD 0 - 10 * 60 * 1000)))
      | none => none
  match U.bulk effectiveSince maxRuns with
  | .error e =>
    { db := InternalHistory.setSyncState db key owner repo C.endMs
        (state.bind SyncStateRec.lastSyncedAt) (some e)
      result := .error e
      fetches := 1 }
  | .ok workflowRuns =>
    let nonCompleted := InternalHistory.getNonCompletedRuns db (some 120)
    match refreshLoop U [] 0 nonCompleted with
    | (.error e, n) =>
      { db := InternalHistory.setSyncState db key owner repo C.endMs
          (state.bind SyncStateRec.lastSyncedAt) (some e)
        result := .error e
        fetches := 1 + n }
    | (.ok refreshed, n) =>
      let merged := mergedRunsOf J workflowRuns refreshed
      let built := recordsOf J U detailsLimit merged
      let db1 := (built.1.toChunks 200).foldl
        (fun d chunk => (InternalHistory.upsertRunsBatch d chunk).1) db
      let db2 := InternalHistory.setSyncState db1 key owner repo C.endMs
        (some C.endIso) none
      { db := db2
        result := .ok (.synced merged.length refreshed.length)
        fetches := 1 + n + built.2 }

/-- The `syncGithub` action: throttle check against the stored SyncState,
then the sync body. -/
def syncGithub (J : JsDate) (U : Upstream) (C : Clock) (owner repo : String)
    (args : SyncArgs) (db : DB) : SyncOutcome :=
  let key := owner ++ "/" ++ repo
  let minIntervalMs := args.minIntervalMs.getD 55000
  let state := InternalHistory.getSyncState db key
  match state with
  | some s =>
    if C.now - s.lastSyncMs < minIntervalMs then
      { db := db, result := .ok (.skipped "min_interval" s.lastSyncedAt), fetches := 0 }
    else syncBody J U C owner repo args db state
  | none => syncBody J U C owner repo args db state

/-- The row shape returned by `getRecentRuns` (`failureSummary ?? null`,
`failurePoints ?? []`). -/
structure RunView where
  id : Int
  name : String
  workflowName : String
  branch : String
  event : String
  status : RunStatus
  conclusion : Option Concl
  url : String
  actor : String
  runNumber : Int
  prNumbers : List Int
  createdAt : String
  updatedAt : String
  startedAt : String
  durationMs : Int
  failureSummary : Option String
  failurePoints : List String
deriving DecidableEq, Repr

/-- The per-row projection of `getRecentRuns`. -/
def runView (row : RunRecord) : RunView :=
  { id := row.runId
    name := row.name
    workflowName := row.workflowName
    branch := row.branch
    event := row.event
    status := row.status
    conclusion := row.conclusion
    url := row.url
    actor := row.actor
    runNumber := row.runNumber
    prNumbers := row.prNumbers
    createdAt := row.createdAt
    updatedAt := row.updatedAt
    startedAt := row.startedAt
    durationMs := row.durationMs
    failureSummary := row.failureSummary
    failurePoints := row.failurePoints.getD [] }

/-- `getRecentRuns` query: empty result on an unparseable `since`, else the
runs with `updatedAtMs ≥ since` in descending index order, capped.  It reads
only the `runs` table. -/
def getRecentRuns (parse : String → Option Int) (db : DB) (since : String)
    (maxRuns : Option Int) : List RunView :=
  let mr := min 500 (max 10 (maxRuns.getD 200))
  match parse since with
  | none => []
  | some sinceMs =>
    ((sortDescBy (fun r => r.updatedAtMs)
        (db.runs.filter (fun r => sinceMs ≤ r.updatedAtMs))).take mr.toNat).map runView

end History

/-! ### Alert deduplication (`convex/alerts.ts`) -/

namespace Alerts

/-- `shouldIncludeWorkflow`: case-insensitive allow-list match, with the
hardcoded default workflow when the allow-list is empty. -/
def shouldIncludeWorkflow (workflowName : String) (allowList : List String) : Bool :=
  if allowList.isEmpty then workflowName == "dbt Deploy to Production"
  else allowList.any (fun n => lowerChars n == lowerChars workflowName)

/-- One pending notification payload. -/
structure PendingNotification where
  runId : Int
  runNumber : Int
  workflowName : String
  conclusion : Option Concl
  summary : String
  points : List String
  url : String
  actor : String
  branch : String
  event : String
  updatedAt : String
  updatedAtMs : Int
  prNumbers : List Int
  messageTitle : String
  messageBody : String
deriving DecidableEq, Repr

/-- `run.conclusion ?? "failure"` as rendered into the payload strings. -/
def conclOrFailure : Option Concl → String
  | none => "failure"
  | some c => conclText (some c)

/-- Build the notification payload for one failing run. -/
def notificationOf (run : RunRecord) : PendingNotification :=
  let summary := run.failureSummary.getD
    (run.workflowName ++ ": run #" ++ toString run.runNumber ++ " ended with " ++
      conclOrFailure run.conclusion ++ ".")
  { runId := run.runId
    runNumber := run.runNumber
    workflowName := run.workflowName
    conclusion := run.conclusion
    summary := summary
    points := (run.failurePoints.getD []).take 3
    url := run.url
    actor := run.actor
    branch := run.branch
    event := run.event
    updatedAt := run.updatedAt
    updatedAtMs := run.updatedAtMs
    prNumbers := run.prNumbers
    messageTitle := run.workflowName ++ " #" ++ toString run.runNumber ++ " (" ++
      conclOrFailure run.conclusion ++ ")"
    messageBody := "What failed: " ++ summary ++ "\n" ++
      "Branch: " ++ run.branch ++ " • Actor: " ++ run.actor ++ " • Event: " ++
      run.event ++ "\n" ++ "Run: " ++ run.url }

/-- The selection loop of `getPendingTeamsFailures`: failure conclusion,
allow-listed workflow, no AlertRecord yet for the `teams_pull` channel;
stop once `limit` notifications are collected. -/
def pendingLoop (alerts : List AlertRec) (allowList : List String) (limit : Nat)
    (acc : List PendingNotification) : List RunRecord → List PendingNotification
  | [] => acc
  | run :: rest =>
    if !conclIsFailure run.conclusion then pendingLoop alerts allowList limit acc rest
    else if !shouldIncludeWorkflow run.workflowName allowList then
      pendingLoop alerts allowList limit acc rest
    else if (alerts.find? (fun a =>
        a.channel == AlertChannel.teams_pull && a.runId == run.runId)).isSome then
      pendingLoop alerts allowList limit acc rest
    else
      let acc' := acc ++ [notificationOf run]
      if limit ≤ acc'.length then acc' else pendingLoop alerts allowList limit acc' rest

/-- Result shape of the `getPendingTeamsFailures` query. -/
structure PendingResult where
  generatedAt : String
  count : Nat
  notifications : List PendingNotification
deriving DecidableEq, Repr

/-- `getPendingTeamsFailures` (a Convex `query`: it only reads the store).
`envAllowList` is the parsed `TEAMS_ALERT_WORKFLOWS` CSV; `nowMs`/`genIso`
are the clock reads. -/
def getPendingTeamsFailures (db : DB) (envAllowList : List String) (nowMs : Int)
    (genIso : String) (limitArg : Option Int) (workflows : Option (List String))
    (lookbackArg : Option Int) : PendingResult :=
  let limit := min 50 (max 1 (limitArg.getD 10))
  let lookbackHours := min (24 * 14) (max 1 (lookbackArg.getD (24 * 7)))
  let lookbackMs := lookbackHours * 60 * 60 * 1000
  let earliest := nowMs - lookbackMs
  let requestedAllowList := workflows.getD []
  let allowList := if !requestedAllowList.isEmpty then requestedAllowList else envAllowList
  let recentRuns := (sortDescBy (fun r => r.updatedAtMs)
    (db.runs.filter (fun r => earliest ≤ r.updatedAtMs))).take 800
  let pending := pendingLoop db.alertsSent allowList limit.toNat [] recentRuns
  { generatedAt := genIso, count := pending.length, notifications := pending }

/-- One iteration of the `acknowledgeTeamsFailures` loop: insert an
AlertRecord for the `teams_pull` channel unless one already exists (the
existence check sees inserts made earlier in the same pass) and provided the
run exists; silently skip otherwise. -/
def ackStep (nowIso : String) (st : DB × Nat) (runId : Int) : DB × Nat :=
  match st.1.alertsSent.find? (fun a =>
      a.channel == AlertChannel.teams_pull && a.runId == runId) with
  | some _ => st
  | none =>
    match st.1.runs.find? (fun r => r.runId == runId) with
    | none => st
    | some run =>
      ({ st.1 with
          alertsSent := st.1.alertsSent ++
            [{ runId := runId, workflowName := run.workflowName,
               channel := AlertChannel.teams_pull, sentAt := nowIso }] },
        st.2 + 1)

/-- `acknowledgeTeamsFailures` mutation: sequentially acknowledge each run
id; returns the number of AlertRecords actually inserted. -/
def acknowledgeTeamsFailures (db : DB) (runIds : List Int) (nowIso : String) : DB × Nat :=
  runIds.foldl (ackStep nowIso) (db, 0)

/-- One externally triggered call against the alert subsystem. -/
inductive StoreCall
  | pending (envAllowList : List String) (nowMs : Int) (genIso : String)
      (limit : Option Int) (workflows : Option (List String)) (lookback : Option Int)
  | acknowledge (runIds : List Int) (nowIso : String)

/-- Database effect of one call: `pending` is a Convex `query` — its handler
contains no insert/patch/delete, so the store is returned unchanged;
`acknowledge` runs the mutation. -/
def applyCall (db : DB) : StoreCall → DB
  | .pending _ _ _ _ _ _ => db
  | .acknowledge runIds nowIso => (acknowledgeTeamsFailures db runIds nowIso).1

/-- Run a sequence of calls left to right. -/
def applyCalls (db : DB) (calls : List StoreCall) : DB :=
  calls.foldl applyCall db

end Alerts

/-! ### Sample data shared by witnesses -/

/-- A concrete run document used by witnesses. -/
def sampleRun : RunRecord :=
  { runId := 101
    name := "Deploy"
    workflowName := "dbt Deploy to Production"
    branch := "main"
    event := "push"
    status := RunStatus.completed
    conclusion := some Concl.failure
    url := "https://example.test/run/101"
    actor := "octocat"
    runNumber := 7
    prNumbers := [12]
    createdAt := "2024-01-02T10:00:00Z"
    updatedAt := "2024-01-02T10:20:00Z"
    startedAt := "2024-01-02T10:01:00Z"
    updatedAtMs := 1704190800000
    durationMs := 1140000
    failureSummary := none
    failurePoints := none }

/-- A store with one run, one sync state and no alerts. -/
def sampleDB : DB :=
  { runs := [sampleRun]
    syncState := [{ key := "o/r", owner := "o", repo := "r", lastSyncMs := 90,
                    lastSyncedAt := some "2024-01-02T10:00:00Z", lastError := none }]
    alertsSent := [] }

/-! ### C8 — duration clamp -/

/-- C8: for every timestamp pair, `parseDurationMs` equals
`max 0 (updated − started)` when both parse, equals 0 when either fails to
parse, and is always ≥ 0. -/
theorem parseDurationMs_clamp (parse : String → Option Int) (startedAt updatedAt : String) :
    (∀ s e, parse startedAt = some s → parse updatedAt = some e →
      History.parseDurationMs parse startedAt updatedAt = max 0 (e - s)) ∧
    ((parse startedAt = none ∨ parse updatedAt = none) →
      History.parseDurationMs parse startedAt updatedAt = 0) ∧
    0 ≤ History.parseDurationMs parse startedAt updatedAt := by
  unfold History.parseDurationMs
  refine ⟨?_, ?_, ?_⟩
  · intro s e hs he
    rw [hs, he]
  · rintro (h | h)
    · rw [h]
    · rw [h]; cases parse startedAt <;> rfl
  · cases parse startedAt <;> cases parse updatedAt
    · exact le_refl 0
    · exact le_refl 0
    · exact le_refl 0
    · exact le_max_left 0 _

/-- Witness for C8 at a concrete parser and timestamps. -/
theorem parseDurationMs_clamp_witness :
    History.parseDurationMs
      (fun s => if s = "a" then some 5 else if s = "b" then some 12 else none) "a" "b" =
      max 0 (12 - 5) :=
  (parseDurationMs_clamp _ "a" "b").1 5 12 rfl rfl

/-! ### C9 — `getRecentRuns` reads only the runs table -/

/-- C9: two stores agreeing on the `runs` table produce identical
`getRecentRuns` results for every argument — the query never reads
SyncState. -/
theorem getRecentRuns_syncstate_independent (parse : String → Option Int)
    (db1 db2 : DB) (since : String) (maxRuns : Option Int)
    (h : db1.runs = db2.runs) :
    History.getRecentRuns parse db1 since maxRuns =
      History.getRecentRuns parse db2 since maxRuns := by
  unfold History.getRecentRuns
  rw [h]

/-- Witness for C9: stores that differ only in `syncState`. -/
theorem getRecentRuns_syncstate_independent_witness :
    History.getRecentRuns (fun _ => some 0)
      { runs := [sampleRun], syncState := [], alertsSent := [] } "2024-01-01T00:00:00Z" none =
    History.getRecentRuns (fun _ => some 0)
      { runs := [sampleRun],
        syncState := [{ key := "o/r", owner := "o", repo := "r", lastSyncMs := 5,
                        lastSyncedAt := none, lastError := some "boom" }],
        alertsSent := [] } "2024-01-01T00:00:00Z" none :=
  getRecentRuns_syncstate_independent _ _ _ _ _ rfl

/-! ### C10 — unparseable `since` returns the empty list -/

/-- C10: when the `since` argument does not parse (`getTime()` is `NaN`),
`getRecentRuns` returns `[]` — it neither throws (the embedding is a total
function) nor falls back to the unfiltered history. -/
theorem getRecentRuns_unparseable_since (parse : String → Option Int) (db : DB)
    (since : String) (maxRuns : Option Int) (h : parse since = none) :
    History.getRecentRuns parse db since maxRuns = [] := by
  unfold History.getRecentRuns
  rw [h]

/-- Witness for C10: a store with a run that would match any time filter,
and a parser rejecting the `since` string. -/
theorem getRecentRuns_unparseable_since_witness :
    History.getRecentRuns (fun _ => none) sampleDB "not-a-date" none = [] :=
  getRecentRuns_unparseable_since _ sampleDB "not-a-date" none rfl

/-! ### C2 — throttle skip is a complete no-op -/

/-- C2: when a SyncState exists for the repository key and
`now − lastSyncMs < minIntervalMs`, `syncGithub` returns the
`min_interval` skip result carrying the stored `lastSyncedAt`, issues no
upstream request, and leaves the entire store (runs, SyncState, alerts)
unchanged. -/
theorem syncGithub_throttle_skip (J : JsDate) (U : Upstream) (C : Clock)
    (owner repo : String) (args : SyncArgs) (db : DB) (s : SyncStateRec)
    (hs : InternalHistory.getSyncState db (owner ++ "/" ++ repo) = some s)
    (ht : C.now - s.lastSyncMs < args.minIntervalMs.getD 55000) :
    History.syncGithub J U C owner repo args db =
      { db := db
        result := .ok (.skipped "min_interval" s.lastSyncedAt)
        fetches := 0 } := by
  unfold History.syncGithub
  dsimp only
  rw [hs]
  simp only [if_pos ht]

/-- Witness for C2: a concrete store whose SyncState was written 10 ms
before the current clock reading, with the default 55 000 ms interval. -/
theorem syncGithub_throttle_skip_witness :
    History.syncGithub ⟨fun _ => none, fun _ => ""⟩
      ⟨fun _ _ => .error "unused", fun _ => .error "unused",
       fun _ => .error "unused", fun _ => .error "unused"⟩
      ⟨100, 200, "2024-01-02T10:21:00Z"⟩ "o" "r"
      ⟨none, none, none, none⟩ sampleDB =
      { db := sampleDB
        result := .ok (.skipped "min_interval" (some "2024-01-02T10:00:00Z"))
        fetches := 0 } :=
  syncGithub_throttle_skip _ _ _ "o" "r" _ sampleDB
    { key := "o/r", owner := "o", repo := "r", lastSyncMs := 90,
      lastSyncedAt := some "2024-01-02T10:00:00Z", lastError := none }
    rfl (by decide)

/-! ### C3 — SyncState recording on failure and success -/

/-- `setSyncState` touches only the `syncState` table. -/
theorem setSyncState_runs (db : DB) (key owner repo : String) (ms : Int)
    (lsa le : Option String) :
    (InternalHistory.setSyncState db key owner repo ms lsa le).runs = db.runs := by
  unfold InternalHistory.setSyncState
  split <;> rfl

/-- One upsert-batch iteration never touches `syncState` or `alertsSent`. -/
theorem upsertStep_frame (st : DB × Nat) (run : RunRecord) :
    (InternalHistory.upsertStep st run).1.syncState = st.1.syncState ∧
    (InternalHistory.upsertStep st run).1.alertsSent = st.1.alertsSent := by
  unfold InternalHistory.upsertStep
  dsimp only
  split
  · exact ⟨rfl, rfl⟩
  · split <;> exact ⟨rfl, rfl⟩

/-- `upsertRunsBatch` never touches `syncState` or `alertsSent`. -/
theorem upsertRunsBatch_frame (db : DB) (runs : List RunRecord) :
    (InternalHistory.upsertRunsBatch db runs).1.syncState = db.syncState ∧
    (InternalHistory.upsertRunsBatch db runs).1.alertsSent = db.alertsSent := by
  unfold InternalHistory.upsertRunsBatch
  have aux : ∀ (l : List RunRecord) (st : DB × Nat),
      (l.foldl InternalHistory.upsertStep st).1.syncState = st.1.syncState ∧
      (l.foldl InternalHistory.upsertStep st).1.alertsSent = st.1.alertsSent := by
    intro l
    induction l with
    | nil => intro st; exact ⟨rfl, rfl⟩
    | cons r rest ih =>
      intro st
      rw [List.foldl_cons]
      refine ⟨?_, ?_⟩
      · rw [(ih _).1, (upsertStep_frame st r).1]
      · rw [(ih _).2, (upsertStep_frame st r).2]
  exact aux runs (db, 0)

/-- The chunked upsert loop of `syncBody` never touches `syncState`. -/
theorem chunkFold_syncState (chunks : List (List RunRecord)) (db : DB) :
    (chunks.foldl (fun d chunk => (InternalHistory.upsertRunsBatch d chunk).1) db).syncState
      = db.syncState := by
  induction chunks generalizing db with
  | nil => rfl
  | cons c rest ih =>
    rw [List.foldl_cons, ih, (upsertRunsBatch_frame db c).1]

/-- C3: `syncGithub` with the throttle check passing runs `syncBody` on the
state read at throttle time; whenever that pass throws (`result = .error e`)
the final store is the input store with only SyncState rewritten —
`lastSyncMs` set to the clock reading, `lastSyncedAt` kept at its previous
value, `lastError` set to the error message — and the same error is
re-thrown; on success (`result = .ok (.synced …)`) SyncState is written with
`lastSyncMs` and `lastSyncedAt` both set to the current clock readings and
`lastError` cleared, on top of a store whose `syncState` table was otherwise
untouched by the pass. -/
theorem syncGithub_syncstate_recording (J : JsDate) (U : Upstream) (C : Clock)
    (owner repo : String) (args : SyncArgs) (db : DB)
    (hnt : ∀ s, InternalHistory.getSyncState db (owner ++ "/" ++ repo) = some s →
      ¬(C.now - s.lastSyncMs < args.minIntervalMs.getD 55000)) :
    History.syncGithub J U C owner repo args db =
      History.syncBody J U C owner repo args db
        (InternalHistory.getSyncState db (owner ++ "/" ++ repo)) ∧
    (∀ e,
      (History.syncBody J U C owner repo args db
          (InternalHistory.getSyncState db (owner ++ "/" ++ repo))).result = .error e →
      (History.syncBody J U C owner repo args db
          (InternalHistory.getSyncState db (owner ++ "/" ++ repo))).db =
        InternalHistory.setSyncState db (owner ++ "/" ++ repo) owner repo C.endMs
          ((InternalHistory.getSyncState db (owner ++ "/" ++ repo)).bind
            SyncStateRec.lastSyncedAt)
          (some e)) ∧
    (∀ n m,
      (History.syncBody J U C owner repo args db
          (InternalHistory.getSyncState db (owner ++ "/" ++ repo))).result =
        .ok (.synced n m) →
      ∃ db1, db1.syncState = db.syncState ∧ db1.alertsSent = db.alertsSent ∧
        (History.syncBody J U C owner repo args db
            (InternalHistory.getSyncState db (owner ++ "/" ++ repo))).db =
          InternalHistory.setSyncState db1 (owner ++ "/" ++ repo) owner repo C.endMs
            (some C.endIso) none) := by
  refine ⟨?_, ?_, ?_⟩
  · unfold History.syncGithub
    dsimp only
    rcases hgs : InternalHistory.getSyncState db (owner ++ "/" ++ repo) with _ | s
    · rfl
    · dsimp only
      rw [if_neg (hnt s hgs)]
  · intro e
    unfold History.syncBody
    dsimp only
    rcases hb : U.bulk (match args.since with
      | some s => some s
      | none =>
        match InternalHistory.getSyncState db (owner ++ "/" ++ repo) with
        | some st => st.lastSyncedAt.map fun t => J.isoOf ((J.parse t).getD 0 - 10 * 60 * 1000)
        | none => none)
      (min 2000 (max 100 (args.maxRuns.getD 1200))) with e' | runs
    · dsimp only
      intro he
      cases he
      rfl
    · dsimp only
      rcases hr : History.refreshLoop U [] 0
          (InternalHistory.getNonCompletedRuns db (some 120)) with ⟨res, n⟩
      rcases res with e' | refreshed
      · dsimp only
        intro he
        cases he
        rfl
      · dsimp only
        intro he
        cases he
  · intro n m
    unfold History.syncBody
    dsimp only
    rcases hb : U.bulk (match args.since with
      | some s => some s
      | none =>
        match InternalHistory.getSyncState db (owner ++ "/" ++ repo) with
        | some st => st.lastSyncedAt.map fun t => J.isoOf ((J.parse t).getD 0 - 10 * 60 * 1000)
        | none => none)
      (min 2000 (max 100 (args.maxRuns.getD 1200))) with e' | runs
    · dsimp only
      intro hok
      cases hok
    · dsimp only
      rcases hr : History.refreshLoop U [] 0
          (InternalHistory.getNonCompletedRuns db (some 120)) with ⟨res, n'⟩
      rcases res with e' | refreshed
      · dsimp only
        intro hok
        cases hok
      · dsimp only
        intro hok
        cases hok
        refine ⟨_, ?_, ?_, rfl⟩
        · exact chunkFold_syncState _ db
        · have aux : ∀ (chunks : List (List RunRecord)) (d : DB),
              (chunks.foldl (fun d chunk => (InternalHistory.upsertRunsBatch d chunk).1)
                d).alertsSent = d.alertsSent := by
            intro chunks
            induction chunks with
            | nil => intro d; rfl
            | cons c rest ih =>
              intro d
              rw [List.foldl_cons, ih, (upsertRunsBatch_frame d c).2]
          exact aux _ db

/-- A store with no SyncState yet (first sync attempt). -/
def noStateDB : DB := { runs := [sampleRun], syncState := [], alertsSent := [] }

/-- Oracles whose bulk fetch throws. -/
def errU : Upstream :=
  ⟨fun _ _ => .error "boom", fun _ => .ok none, fun _ => .error "x", fun _ => .error "x"⟩

/-- A date helper treating every string as unparseable. -/
def zeroJ : JsDate := ⟨fun _ => none, fun _ => ""⟩

/-- Concrete clock readings. -/
def wClock : Clock := ⟨100, 200, "iso-end"⟩

/-- Default sync arguments. -/
def wArgs : SyncArgs := ⟨none, none, none, none⟩

/-- Witness for C3: a first sync pass whose bulk fetch throws records the
error into SyncState with `lastSyncMs` set to the clock reading. -/
theorem syncGithub_syncstate_recording_witness :
    (History.syncBody zeroJ errU wClock "o" "r" wArgs noStateDB
        (InternalHistory.getSyncState noStateDB ("o" ++ "/" ++ "r"))).db =
      InternalHistory.setSyncState noStateDB ("o" ++ "/" ++ "r") "o" "r" 200
        ((InternalHistory.getSyncState noStateDB ("o" ++ "/" ++ "r")).bind
          SyncStateRec.lastSyncedAt) (some "boom") :=
  (syncGithub_syncstate_recording zeroJ errU wClock "o" "r" wArgs noStateDB
    (fun _ h => nomatch h)).2.1 "boom" rfl

/-! ### C1 — change-detected upserts are idempotent -/

/-- Equality on every tracked field, exactly as the claim reads it: scalar
fields by equality, `prNumbers`/`failurePoints` by the order-sensitive
element-wise `arraysEqual`, `failureSummary` with absent as `undefined`. -/
def trackedEq (e args : RunRecord) : Prop :=
  e.name = args.name ∧ e.workflowName = args.workflowName ∧ e.branch = args.branch ∧
  e.event = args.event ∧ e.status = args.status ∧ e.conclusion = args.conclusion ∧
  e.url = args.url ∧ e.actor = args.actor ∧ e.runNumber = args.runNumber ∧
  e.createdAt = args.createdAt ∧ e.updatedAt = args.updatedAt ∧
  e.startedAt = args.startedAt ∧ e.updatedAtMs = args.updatedAtMs ∧
  e.durationMs = args.durationMs ∧ e.failureSummary = args.failureSummary ∧
  InternalHistory.arraysEqual (some e.prNumbers) (some args.prNumbers) = true ∧
  InternalHistory.arraysEqual e.failurePoints args.failurePoints = true

instance (e args : RunRecord) : Decidable (trackedEq e args) := by
  unfold trackedEq
  infer_instance

/-- Tracked-field equality makes the change detector report no change. -/
theorem hasMeaningfulRunChange_eq_false {e args : RunRecord} (h : trackedEq e args) :
    InternalHistory.hasMeaningfulRunChange (some e) args = false := by
  obtain ⟨h1, h2, h3, h4, h5, h6, h7, h8, h9, h10, h11, h12, h13, h14, h15, h16, h17⟩ := h
  simp [InternalHistory.hasMeaningfulRunChange, h1, h2, h3, h4, h5, h6, h7, h8, h9, h10,
    h11, h12, h13, h14, h15, h16, h17]

/-- A batch iteration over a tracked-equal record is the identity. -/
theorem upsertStep_noop {db : DB} {k : Nat} {run : RunRecord}
    (h : ∃ e, db.runs.find? (fun r => r.runId == run.runId) = some e ∧ trackedEq e run) :
    InternalHistory.upsertStep (db, k) run = (db, k) := by
  obtain ⟨e, hf, ht⟩ := h
  unfold InternalHistory.upsertStep
  dsimp only
  rw [hf, hasMeaningfulRunChange_eq_false ht]
  simp

/-- A batch of tracked-equal records writes nothing and counts zero. -/
theorem upsertRunsBatch_noop (db : DB) (batch : List RunRecord)
    (h : ∀ run ∈ batch, ∃ e, db.runs.find? (fun r => r.runId == run.runId) = some e ∧
      trackedEq e run) :
    InternalHistory.upsertRunsBatch db batch = (db, 0) := by
  unfold InternalHistory.upsertRunsBatch
  have aux : ∀ (l : List RunRecord) (k : Nat),
      (∀ run ∈ l, ∃ e, db.runs.find? (fun r => r.runId == run.runId) = some e ∧
        trackedEq e run) →
      l.foldl InternalHistory.upsertStep (db, k) = (db, k) := by
    intro l
    induction l with
    | nil => intro k _; rfl
    | cons r rest ih =>
      intro k hl
      rw [List.foldl_cons, upsertStep_noop (hl r (List.mem_cons_self r rest))]
      exact ih k (fun run hrun => hl run (List.mem_cons_of_mem r hrun))
  exact aux batch 0 h

/-- C1: an upsert whose argument agrees with the stored record on every
tracked field writes nothing — `upsertRun` returns the unchanged store with
`changed = false`, `upsertRunsBatch` returns the unchanged store with count
0, and the chunked batch loop of a sync pass (the writes of a second `sync`
with no new upstream activity) leaves the store untouched. -/
theorem upsert_change_detection_idempotent :
    (∀ (db : DB) (args e : RunRecord),
      db.runs.find? (fun r => r.runId == args.runId) = some e → trackedEq e args →
      InternalHistory.upsertRun db args = (db, false)) ∧
    (∀ (db : DB) (batch : List RunRecord),
      (∀ run ∈ batch, ∃ e, db.runs.find? (fun r => r.runId == run.runId) = some e ∧
        trackedEq e run) →
      InternalHistory.upsertRunsBatch db batch = (db, 0)) ∧
    (∀ (db : DB) (chunks : List (List RunRecord)),
      (∀ chunk ∈ chunks, ∀ run ∈ chunk, ∃ e,
        db.runs.find? (fun r => r.runId == run.runId) = some e ∧ trackedEq e run) →
      chunks.foldl (fun d chunk => (InternalHistory.upsertRunsBatch d chunk).1) db = db) := by
  refine ⟨?_, upsertRunsBatch_noop, ?_⟩
  · intro db args e hf ht
    unfold InternalHistory.upsertRun
    dsimp only
    rw [hf, hasMeaningfulRunChange_eq_false ht]
    simp
  · intro db chunks h
    induction chunks with
    | nil => rfl
    | cons c rest ih =>
      rw [List.foldl_cons,
        congrArg Prod.fst (upsertRunsBatch_noop db c (h c (List.mem_cons_self c rest)))]
      exact ih (fun chunk hc run hr => h chunk (List.mem_cons_of_mem c hc) run hr)

/-- Witness for C1: re-upserting the stored run unchanged writes nothing. -/
theorem upsert_change_detection_idempotent_witness :
    InternalHistory.upsertRunsBatch sampleDB [sampleRun] = (sampleDB, 0) :=
  upsert_change_detection_idempotent.2.1 sampleDB [sampleRun]
    (by
      intro run hrun
      rw [List.mem_singleton] at hrun
      subst hrun
      exact ⟨sampleRun, rfl, by decide⟩)

/-! ### C7 — at most one AlertRecord per (channel, runId) -/

/-- No two ledger entries share a (channel, runId) pair. -/
def alertPairNodup (l : List AlertRec) : Prop :=
  l.Pairwise (fun a b => ¬(a.channel = b.channel ∧ a.runId = b.runId))

instance (l : List AlertRec) : Decidable (alertPairNodup l) := by
  unfold alertPairNodup
  infer_instance

/-- One acknowledge iteration preserves pair-uniqueness: it inserts only
after the existence check (against the current ledger, including inserts of
the same pass) comes back empty. -/
theorem ackStep_preserves (nowIso : String) (st : DB × Nat) (rid : Int)
    (h : alertPairNodup st.1.alertsSent) :
    alertPairNodup (Alerts.ackStep nowIso st rid).1.alertsSent := by
  unfold Alerts.ackStep
  dsimp only
  split
  · exact h
  · rename_i hf
    split
    · exact h
    · rename_i run hr
      dsimp only
      unfold alertPairNodup at h ⊢
      rw [List.pairwise_append]
      refine ⟨h, List.pairwise_singleton _ _, ?_⟩
      intro a ha b hb hab
      rw [List.mem_singleton] at hb
      subst hb
      obtain ⟨hc, hi⟩ := hab
      exact (List.find?_eq_none.mp hf a ha) (by simp [hc, hi])

/-- The acknowledge mutation preserves pair-uniqueness of the ledger. -/
theorem acknowledge_preserves (db : DB) (runIds : List Int) (nowIso : String)
    (h : alertPairNodup db.alertsSent) :
    alertPairNodup (Alerts.acknowledgeTeamsFailures db runIds nowIso).1.alertsSent := by
  unfold Alerts.acknowledgeTeamsFailures
  have aux : ∀ (ids : List Int) (st : DB × Nat), alertPairNodup st.1.alertsSent →
      alertPairNodup (ids.foldl (Alerts.ackStep nowIso) st).1.alertsSent := by
    intro ids
    induction ids with
    | nil => intro st hst; exact hst
    | cons i rest ih =>
      intro st hst
      rw [List.foldl_cons]
      exact ih _ (ackStep_preserves nowIso st i hst)
  exact aux runIds (db, 0) h

/-- C7: starting from a ledger with no duplicate (channel, runId) pair,
after any sequence of sequentially executed `pending` and `acknowledge`
calls — including an acknowledge whose id list repeats an id — at most one
AlertRecord exists per (channel, runId); and `pending`, being a read-only
query, never inserts an AlertRecord. -/
theorem at_most_one_alert (db : DB) (calls : List Alerts.StoreCall)
    (h : alertPairNodup db.alertsSent) :
    alertPairNodup (Alerts.applyCalls db calls).alertsSent ∧
    (∀ (db' : DB) envA nowMs genIso lim wfs lb,
      (Alerts.applyCall db' (.pending envA nowMs genIso lim wfs lb)).alertsSent =
        db'.alertsSent) := by
  constructor
  · unfold Alerts.applyCalls
    induction calls generalizing db with
    | nil => exact h
    | cons c rest ih =>
      rw [List.foldl_cons]
      refine ih _ ?_
      rcases c with ⟨envA, nowMs, genIso, lim, wfs, lb⟩ | ⟨runIds, nowIso⟩
      · exact h
      · exact acknowledge_preserves db runIds nowIso h
  · intro db' _ _ _ _ _ _
    rfl

/-- Witness for C7: acknowledging `[101, 101]` in one call against a ledger
that already satisfies the invariant keeps it, and inserts exactly one
record. -/
theorem at_most_one_alert_witness :
    alertPairNodup
      (Alerts.applyCalls sampleDB [.acknowledge [101, 101] "2024-01-02T11:00:00Z"]).alertsSent ∧
    (Alerts.acknowledgeTeamsFailures sampleDB [101, 101] "2024-01-02T11:00:00Z").2 = 1 :=
  ⟨(at_most_one_alert sampleDB [.acknowledge [101, 101] "2024-01-02T11:00:00Z"]
      (by decide)).1,
   by decide⟩

/-! ### C6 — dedup-against-summary -/

/-- A failed job with a failed step, as the convex summarizer receives it
when log enrichment yields no highlights. -/
def convexFallbackJob : Job :=
  { id := 7, name := "build", conclusion := some Concl.failure,
    steps := some [{ name := "compile", conclusion := some Concl.failure, number := 1 }] }

/-- C6 counterexample: at the `convex/history.ts` call site
(`summarizeFailure`, used by `syncGithub`), the no-highlights fallback
returns a points list whose single entry IS the summary string — the
dedup-against-summary rule does not hold at both call sites. -/
theorem summarize_point_equals_summary_cex :
    (History.summarizeFailure convexFallbackJob []).points =
      [(History.summarizeFailure convexFallbackJob []).summary] ∧
    (History.summarizeFailure convexFallbackJob []).summary =
      "build: step #1 (compile) ended with failure." := by
  decide

/-- Membership in `dedupePoints` output guarantees all four exclusion
conditions against the summary. -/
theorem dedupePoints_mem {summary p : String} {points : List String}
    (hp : p ∈ dedupePoints summary points) :
    normalizeText p ≠ normalizeText summary ∧
    listContains (normalizeText p).toList (normalizeText summary).toList = false ∧
    normalizeMessageCore p ≠ normalizeMessageCore summary ∧
    listContains (normalizeMessageCore p).toList
      (normalizeMessageCore summary).toList = false := by
  unfold dedupePoints at hp
  dsimp only at hp
  rw [List.mem_filter] at hp
  obtain ⟨_, hcond⟩ := hp
  simp only [Bool.and_eq_true, decide_eq_true_eq, Bool.not_eq_true'] at hcond
  exact ⟨hcond.1.1.1, hcond.1.1.2, hcond.1.2, hcond.2⟩

/-- The points of `buildFailureSummary` are empty or pass through
`dedupePoints` against the returned summary. -/
theorem buildFailureSummary_shape (logs : Int → Except String String) (jobs : List Job) :
    (ApiRoute.buildFailureSummary logs jobs).points = [] ∨
    ∃ pts, (ApiRoute.buildFailureSummary logs jobs).points =
      dedupePoints (ApiRoute.buildFailureSummary logs jobs).summary pts := by
  unfold ApiRoute.buildFailureSummary
  dsimp only
  split
  · exact Or.inl rfl
  · exact Or.inr ⟨_, rfl⟩

/-- C6 (amended): at the `/api/history` call site — `buildFailureSummary`,
the one site that applies `dedupePoints` — no returned point is equal to or
a substring of the returned summary after case/whitespace normalization,
nor after additionally stripping one leading `"prefix: "` segment from each
side.  (The convex `summarizeFailure` call site provides no such guarantee,
see the counterexample.) -/
theorem buildFailureSummary_dedup (logs : Int → Except String String)
    (jobs : List Job) (p : String)
    (hp : p ∈ (ApiRoute.buildFailureSummary logs jobs).points) :
    normalizeText p ≠ normalizeText (ApiRoute.buildFailureSummary logs jobs).summary ∧
    listContains (normalizeText p).toList
      (normalizeText (ApiRoute.buildFailureSummary logs jobs).summary).toList = false ∧
    normalizeMessageCore p ≠
      normalizeMessageCore (ApiRoute.buildFailureSummary logs jobs).summary ∧
    listContains (normalizeMessageCore p).toList
      (normalizeMessageCore (ApiRoute.buildFailureSummary logs jobs).summary).toList =
      false := by
  rcases buildFailureSummary_shape logs jobs with h | ⟨pts, h⟩
  · rw [h] at hp
    cases hp
  · rw [h] at hp
    exact dedupePoints_mem hp

/-- The failed job and log oracle of the C6 witness: two strong diagnostic
lines survive deduplication against the dbt-style summary. -/
def dbtJob : Job :=
  { id := 1, name := "build", conclusion := some Concl.failure, steps := none }

/-- Log oracle returning a fixed two-line log for every job id. -/
def dbtLogs : Int → Except String String := fun _ =>
  .ok "Database Error in model of alpha\nRuntime Error happened in beta"

/-- Witness for C6 at a concrete job, log and point. -/
theorem buildFailureSummary_dedup_witness :
    normalizeText "build: Runtime Error happened in beta" ≠
      normalizeText (ApiRoute.buildFailureSummary dbtLogs [dbtJob]).summary ∧
    listContains (normalizeText "build: Runtime Error happened in beta").toList
      (normalizeText (ApiRoute.buildFailureSummary dbtLogs [dbtJob]).summary).toList =
      false ∧
    normalizeMessageCore "build: Runtime Error happened in beta" ≠
      normalizeMessageCore (ApiRoute.buildFailureSummary dbtLogs [dbtJob]).summary ∧
    listContains
      (normalizeMessageCore "build: Runtime Error happened in beta").toList
      (normalizeMessageCore (ApiRoute.buildFailureSummary dbtLogs [dbtJob]).summary).toList =
      false :=
  buildFailureSummary_dedup dbtLogs [dbtJob] "build: Runtime Error happened in beta"
    (by decide)

/-! ### C4 — merge precedence and ordering -/

/-- `find?` commutes with a map that leaves the predicate unchanged. -/
theorem find?_map_predfix {α : Type} {f : α → α} {p : α → Bool}
    (hf : ∀ a, p (f a) = p a) :
    ∀ l : List α, List.find? p (l.map f) = (List.find? p l).map f := by
  intro l
  induction l with
  | nil => rfl
  | cons a rest ih =>
    rw [List.map_cons]
    by_cases ha : p a = true
    · rw [List.find?_cons_of_pos _ (by rw [hf]; exact ha), List.find?_cons_of_pos _ ha]
      rfl
    · rw [List.find?_cons_of_neg _ (by rw [hf]; simpa using ha),
        List.find?_cons_of_neg _ ha, ih]

namespace History

/-- Value of a key in the merge map (`Map.get`). -/
def mapLookup (m : List (Int × WorkflowRun)) (k : Int) : Option WorkflowRun :=
  (m.find? (fun p => p.1 == k)).map Prod.snd

/-- The last entry of `l` whose upstream id is `k` — the value a JS `Map`
holds for key `k` after inserting all of `l` in order. -/
def lastWithId (l : List WorkflowRun) (k : Int) : Option WorkflowRun :=
  (l.filter (fun r => r.id == k)).getLast?

/-- `Map.set` then `get` at the same key yields the new value. -/
theorem mapLookup_mapSet_self (m : List (Int × WorkflowRun)) (k : Int) (v : WorkflowRun) :
    mapLookup (mapSet m k v) k = some v := by
  unfold mapSet
  split
  · rename_i hany
    unfold mapLookup
    rw [find?_map_predfix (fun q => by by_cases hq : (q.1 == k) = true <;> simp [hq])]
    have hsome : (m.find? (fun p => p.1 == k)).isSome = true := by
      rw [List.find?_isSome]
      exact List.any_eq_true.mp hany
    rcases hfq : m.find? (fun p => p.1 == k) with _ | q
    · rw [hfq] at hsome; cases hsome
    · have hpq := List.find?_some hfq
      have hq : q.1 = k := by simpa using hpq
      rw [hfq]
      simp [hq]
  · unfold mapLookup
    rw [List.find?_append]
    rename_i hany
    have h0 : m.find? (fun p => p.1 == k) = none := by
      rw [List.find?_eq_none]
      intro x hx hpx
      exact hany (List.any_eq_true.mpr ⟨x, hx, hpx⟩)
    rw [h0]
    simp [List.find?]

/-- `Map.set` leaves other keys unchanged. -/
theorem mapLookup_mapSet_ne (m : List (Int × WorkflowRun)) (k k' : Int) (v : WorkflowRun)
    (hkk : k' ≠ k) :
    mapLookup (mapSet m k v) k' = mapLookup m k' := by
  unfold mapSet
  split
  · unfold mapLookup
    rw [find?_map_predfix (f := fun p => if p.1 == k then (k, v) else p)
      (p := fun p => p.1 == k')]
    · rcases hfq : m.find? (fun p => p.1 == k') with _ | q
      · rw [hfq]; rfl
      · have hpq := List.find?_some hfq
        have hq : q.1 = k' := by simpa using hpq
        have hqk : (q.1 == k) = false := by
          rw [hq]
          simpa using hkk
        rw [hfq]
        simp [hq, hkk]
    · intro q
      by_cases hq : (q.1 == k) = true
      · have hqe : q.1 = k := by simpa using hq
        simp [hq, hqe]
      · simp [hq]
  · unfold mapLookup
    rw [List.find?_append]
    have : (((k, v) : Int × WorkflowRun).1 == k') = false := by
      simpa using fun h => hkk h.symm
    simp [List.find?, this]

/-- Lookup after folding a run list into the merge map: the last entry of
the list with the key wins, else the base map's value (later `Map.set`
calls override earlier ones). -/
theorem mapLookup_foldl (l : List WorkflowRun) (m0 : List (Int × WorkflowRun)) (k : Int) :
    mapLookup (l.foldl (fun m r => mapSet m r.id r) m0) k =
      ((l.filter (fun r => r.id == k)).getLast?).or (mapLookup m0 k) := by
  induction l generalizing m0 with
  | nil => simp
  | cons r rest ih =>
    rw [List.foldl_cons, ih]
    by_cases hid : (r.id == k) = true
    · rw [List.filter_cons_of_pos (p := fun (r : WorkflowRun) => r.id == k) hid]
      have hk : r.id = k := by simpa using hid
      cases hlast : (rest.filter (fun r => r.id == k)).getLast? with
      | some x => rw [List.getLast?_cons, hlast]; rfl
      | none =>
        rw [List.getLast?_cons, hlast]
        have hself : mapLookup (mapSet m0 r.id r) k = some r :=
          hk ▸ mapLookup_mapSet_self m0 r.id r
        rw [hself]
        rfl
    · rw [List.filter_cons_of_neg (p := fun (r : WorkflowRun) => r.id == k) hid]
      rw [mapLookup_mapSet_ne m0 r.id k r (by simpa using fun h => hid (by simp [h]))]

/-- Every merge-map entry's value carries its key as its id (values are
inserted under their own `run.id`). -/
def pairsWf (m : List (Int × WorkflowRun)) : Prop := ∀ p ∈ m, p.2.id = p.1

/-- The merge-map keys are pairwise distinct. -/
def keysNodup (m : List (Int × WorkflowRun)) : Prop := (m.map Prod.fst).Nodup

theorem mem_mapSet {m : List (Int × WorkflowRun)} {k : Int} {v : WorkflowRun}
    {p : Int × WorkflowRun} (hp : p ∈ mapSet m k v) : p ∈ m ∨ p = (k, v) := by
  unfold mapSet at hp
  split at hp
  · rw [List.mem_map] at hp
    obtain ⟨q, hq, hfq⟩ := hp
    by_cases h : (q.1 == k) = true
    · rw [if_pos h] at hfq
      exact Or.inr hfq.symm
    · rw [if_neg h] at hfq
      exact Or.inl (hfq ▸ hq)
  · rw [List.mem_append] at hp
    rcases hp with h | h
    · exact Or.inl h
    · rw [List.mem_singleton] at h
      exact Or.inr h

theorem pairsWf_mapSet {m : List (Int × WorkflowRun)} {k : Int} {v : WorkflowRun}
    (hm : pairsWf m) (hv : v.id = k) : pairsWf (mapSet m k v) := by
  intro p hp
  rcases mem_mapSet hp with h | h
  · exact hm p h
  · rw [h]
    exact hv

theorem pairsWf_foldl (l : List WorkflowRun) (m0 : List (Int × WorkflowRun))
    (hm : pairsWf m0) : pairsWf (l.foldl (fun m r => mapSet m r.id r) m0) := by
  induction l generalizing m0 with
  | nil => exact hm
  | cons r rest ih =>
    rw [List.foldl_cons]
    exact ih _ (pairsWf_mapSet hm rfl)

theorem keysNodup_mapSet {m : List (Int × WorkflowRun)} {k : Int} {v : WorkflowRun}
    (hm : keysNodup m) : keysNodup (mapSet m k v) := by
  unfold mapSet
  split
  · unfold keysNodup
    have hkeys : (m.map (fun p => if p.1 == k then (k, v) else p)).map Prod.fst =
        m.map Prod.fst := by
      rw [List.map_map]
      apply List.map_congr_left
      intro q _
      by_cases h : (q.1 == k) = true
      · have hqe : q.1 = k := by simpa using h
        simp [Function.comp, h, hqe]
      · simp [Function.comp, h]
    rw [hkeys]
    exact hm
  · rename_i hany
    unfold keysNodup
    rw [List.map_append]
    rw [List.nodup_append]
    refine ⟨hm, List.nodup_singleton _, ?_⟩
    intro a ha hb
    simp only [List.map_cons, List.map_nil, List.mem_singleton] at hb
    obtain ⟨q, hq, hqa⟩ := List.mem_map.mp ha
    apply hany
    rw [List.any_eq_true]
    exact ⟨q, hq, by simp [hqa, hb]⟩

theorem keysNodup_foldl (l : List WorkflowRun) (m0 : List (Int × WorkflowRun))
    (hm : keysNodup m0) : keysNodup (l.foldl (fun m r => mapSet m r.id r) m0) := by
  induction l generalizing m0 with
  | nil => exact hm
  | cons r rest ih =>
    rw [List.foldl_cons]
    exact ih _ (keysNodup_mapSet hm)

theorem mapLookup_of_mem :
    ∀ (m : List (Int × WorkflowRun)) (k : Int) (v : WorkflowRun),
      keysNodup m → (k, v) ∈ m → mapLookup m k = some v := by
  intro m
  induction m with
  | nil => intro k v _ h; cases h
  | cons p rest ih =>
    intro k v hm h
    unfold keysNodup at hm
    rw [List.map_cons, List.nodup_cons] at hm
    rcases List.mem_cons.mp h with he | hrest
    · rw [← he]
      unfold mapLookup
      rw [List.find?_cons_of_pos (p := fun (q : Int × WorkflowRun) => q.1 == k) _ (by simp)]
      rfl
    · have hk : k ∈ rest.map Prod.fst := List.mem_map.mpr ⟨(k, v), hrest, rfl⟩
      have hne : ¬((p.1 == k) = true) := by
        simp only [beq_iff_eq]
        intro h'
        exact hm.1 (h' ▸ hk)
      unfold mapLookup
      rw [List.find?_cons_of_neg (p := fun (q : Int × WorkflowRun) => q.1 == k) _ hne]
      exact ih k v hm.2 hrest

/-- The merged values contain exactly one run per id; for an id present in
the tail-repair list the unique value is the last tail-repair entry with
that id. -/
theorem merged_id_unique (bulkRuns refreshed : List WorkflowRun) (idv : Int)
    (ht : idv ∈ refreshed.map WorkflowRun.id) :
    ∃ tailRun, lastWithId refreshed idv = some tailRun ∧
      tailRun ∈ (mergedPairs bulkRuns refreshed).map Prod.snd ∧
      ∀ r ∈ (mergedPairs bulkRuns refreshed).map Prod.snd, r.id = idv → r = tailRun := by
  have hx : ∃ x, (refreshed.filter (fun r => r.id == idv)).getLast? = some x := by
    obtain ⟨r, hr, hre⟩ := List.mem_map.mp ht
    have hmem : r ∈ refreshed.filter (fun r => r.id == idv) :=
      List.mem_filter.mpr ⟨hr, by simp [hre]⟩
    rcases hl : (refreshed.filter (fun r => r.id == idv)).getLast? with _ | x
    · rw [List.getLast?_eq_none_iff] at hl
      rw [hl] at hmem
      cases hmem
    · exact ⟨x, hl⟩
  obtain ⟨tailRun, htail⟩ := hx
  have hlk : mapLookup (mergedPairs bulkRuns refreshed) idv = some tailRun := by
    unfold mergedPairs
    rw [mapLookup_foldl, htail]
    rfl
  have hwf : pairsWf (mergedPairs bulkRuns refreshed) := by
    unfold mergedPairs
    exact pairsWf_foldl _ _ (pairsWf_foldl _ _ (fun p hp => nomatch hp))
  have hnd : keysNodup (mergedPairs bulkRuns refreshed) := by
    unfold mergedPairs
    exact keysNodup_foldl _ _ (keysNodup_foldl _ _ List.nodup_nil)
  refine ⟨tailRun, htail, ?_, ?_⟩
  · unfold mapLookup at hlk
    rcases hfq : (mergedPairs bulkRuns refreshed).find? (fun p => p.1 == idv) with _ | q
    · rw [hfq] at hlk
      cases hlk
    · rw [hfq] at hlk
      have hq2 : q.2 = tailRun := by simpa using hlk
      exact List.mem_map.mpr ⟨q, List.mem_of_find?_eq_some hfq, hq2⟩
  · intro r hr hid
    obtain ⟨q, hq, hqsnd⟩ := List.mem_map.mp hr
    have hq1 : q.1 = idv := by
      rw [← hwf q hq, hqsnd, hid]
    have hqr : q = (idv, r) := Prod.ext hq1 hqsnd
    have := mapLookup_of_mem _ idv r hnd (hqr ▸ hq)
    rw [hlk] at this
    exact (Option.some.injEq _ _ ▸ this).symm

end History

instance descKeyTotal {α : Type} (key : α → Int) :
    IsTotal α (fun a b => key b ≤ key a) :=
  ⟨fun a b => Int.le_total (key b) (key a)⟩

instance descKeyTrans {α : Type} (key : α → Int) :
    IsTrans α (fun a b => key b ≤ key a) :=
  ⟨fun _ _ _ h1 h2 => le_trans h2 h1⟩

/-- The merge-sort step produces a list sorted descending in the key. -/
theorem sortDescBy_sorted {α : Type} (key : α → Int) (l : List α) :
    List.Sorted (fun a b => key b ≤ key a) (sortDescBy key l) :=
  List.sorted_insertionSort _ l

/-- The sort is a permutation of its input. -/
theorem sortDescBy_perm {α : Type} (key : α → Int) (l : List α) :
    (sortDescBy key l).Perm l :=
  List.perm_insertionSort _ l

namespace History

/-- The record `recordStep` appends for one enumerated merged run. -/
def recordAt (J : JsDate) (U : Upstream) (detailsLimit : Int)
    (p : Nat × WorkflowRun) : RunRecord :=
  let base := buildBaseRecord J p.2
  if p.2.status == RunStatus.completed && p.2.conclusion != some Concl.success &&
      decide ((p.1 : Int) < detailsLimit) then
    (enrichRecord U base p.2).1
  else base

theorem recordStep_fst (J : JsDate) (U : Upstream) (detailsLimit : Int)
    (st : List RunRecord × Nat) (p : Nat × WorkflowRun) :
    (recordStep J U detailsLimit st p).1 = st.1 ++ [recordAt J U detailsLimit p] := by
  unfold recordStep recordAt
  dsimp only
  split <;> rfl

/-- The `runsToUpsert` list is the merged list enumerated and mapped through
the per-run record builder. -/
theorem recordsOf_fst (J : JsDate) (U : Upstream) (detailsLimit : Int)
    (merged : List WorkflowRun) :
    (recordsOf J U detailsLimit merged).1 =
      merged.enum.map (recordAt J U detailsLimit) := by
  unfold recordsOf
  have aux : ∀ (l : List (Nat × WorkflowRun)) (acc : List RunRecord) (n : Nat),
      (l.foldl (recordStep J U detailsLimit) (acc, n)).1 =
        acc ++ l.map (recordAt J U detailsLimit) := by
    intro l
    induction l with
    | nil => intro acc n; simp
    | cons p rest ih =>
      intro acc n
      rw [List.foldl_cons]
      have hs := recordStep_fst J U detailsLimit (acc, n) p
      rcases hstep : recordStep J U detailsLimit (acc, n) p with ⟨acc', n'⟩
      rw [hstep] at hs
      dsimp only at hs
      rw [ih acc' n', hs, List.map_cons]
      simp
  simpa using aux merged.enum [] 0

end History

/-- C4: for every run id present in both the bulk-pass list and the
tail-repair list of one sync pass, the merged collection contains exactly
one run with that id and it is the tail-repair version (the last tail entry
with that id, since tail entries are applied after bulk entries into the
merge map); the merged collection is sorted by `updated_at` descending; and
the upserted record list is exactly the merged collection enumerated through
the per-run record builder. -/
theorem merge_tail_wins_and_sorted (J : JsDate) (U : Upstream) (detailsLimit : Int)
    (bulkRuns refreshed : List WorkflowRun) (idv : Int)
    (_hb : idv ∈ bulkRuns.map WorkflowRun.id)
    (ht : idv ∈ refreshed.map WorkflowRun.id) :
    (∃ tailRun, History.lastWithId refreshed idv = some tailRun ∧
      tailRun ∈ History.mergedRunsOf J bulkRuns refreshed ∧
      ∀ r ∈ History.mergedRunsOf J bulkRuns refreshed, r.id = idv → r = tailRun) ∧
    List.Sorted (fun a b => (J.parse b.updated_at).getD 0 ≤ (J.parse a.updated_at).getD 0)
      (History.mergedRunsOf J bulkRuns refreshed) ∧
    (History.recordsOf J U detailsLimit (History.mergedRunsOf J bulkRuns refreshed)).1 =
      (History.mergedRunsOf J bulkRuns refreshed).enum.map
        (History.recordAt J U detailsLimit) := by
  obtain ⟨tailRun, htail, hmem, huniq⟩ := History.merged_id_unique bulkRuns refreshed idv ht
  refine ⟨⟨tailRun, htail, ?_, ?_⟩, ?_, History.recordsOf_fst J U detailsLimit _⟩
  · unfold History.mergedRunsOf
    exact (sortDescBy_perm _ _).mem_iff.mpr hmem
  · intro r hr hid
    unfold History.mergedRunsOf at hr
    exact huniq r ((sortDescBy_perm _ _).mem_iff.mp hr) hid
  · unfold History.mergedRunsOf
    exact sortDescBy_sorted _ _

/-- A bulk-pass (stale, still in-progress) version of upstream run 5. -/
def bulkRun5 : WorkflowRun :=
  { id := 5, name := "Deploy", display_title := "t", path := none, head_branch := "main",
    event := "push", status := RunStatus.in_progress, conclusion := none, html_url := "u",
    actor := some "a", run_number := 1, pull_requests := [], head_commit := none,
    created_at := "c", updated_at := "t1", run_started_at := none }

/-- The fresher tail-repair version of the same run. -/
def tailRun5 : WorkflowRun :=
  { bulkRun5 with
    status := RunStatus.completed
    conclusion := some Concl.success
    updated_at := "t2" }

/-- A date helper giving `t2` a later timestamp than everything else. -/
def numJ : JsDate := ⟨fun s => if s = "t2" then some 200 else some 100, fun _ => ""⟩

/-- Witness for C4 at a concrete conflicting id. -/
theorem merge_tail_wins_and_sorted_witness :
    (∃ tailRun, History.lastWithId [tailRun5] 5 = some tailRun ∧
      tailRun ∈ History.mergedRunsOf numJ [bulkRun5] [tailRun5] ∧
      ∀ r ∈ History.mergedRunsOf numJ [bulkRun5] [tailRun5], r.id = 5 → r = tailRun) ∧
    List.Sorted
      (fun a b => (numJ.parse b.updated_at).getD 0 ≤ (numJ.parse a.updated_at).getD 0)
      (History.mergedRunsOf numJ [bulkRun5] [tailRun5]) ∧
    (History.recordsOf numJ errU 120
        (History.mergedRunsOf numJ [bulkRun5] [tailRun5])).1 =
      (History.mergedRunsOf numJ [bulkRun5] [tailRun5]).enum.map
        (History.recordAt numJ errU 120) :=
  merge_tail_wins_and_sorted numJ errU 120 [bulkRun5] [tailRun5] 5 (by decide) (by decide)

/-! ### C5 — highlight ranking -/

theorem dedupeByKey_sublist {α β : Type} [DecidableEq β] (key : α → β) (l : List α) :
    (dedupeByKey key l).Sublist l := by
  have aux : ∀ (n : Nat) (l : List α), l.length ≤ n → (dedupeByKey key l).Sublist l := by
    intro n
    induction n with
    | zero =>
      intro l h
      match l with
      | [] => exact List.Sublist.refl []
      | c :: rest => simp at h
    | succ n ih =>
      intro l h
      match l with
      | [] => exact List.Sublist.refl []
      | c :: rest =>
        rw [dedupeByKey_cons]
        refine List.Sublist.cons₂ c ?_
        have h1 : (rest.filter (fun d => key d ≠ key c)).length ≤ n := by
          have := rest.length_filter_le (fun d => decide (key d ≠ key c))
          simp only [List.length_cons] at h
          omega
        exact (ih _ h1).trans rest.filter_sublist
  exact aux l.length l (Nat.le_refl _)

theorem dedupeByKey_keys {α β : Type} [DecidableEq β] (key : α → β) (l : List α) :
    (dedupeByKey key l).Pairwise (fun a b => key a ≠ key b) := by
  have aux : ∀ (n : Nat) (l : List α), l.length ≤ n →
      (dedupeByKey key l).Pairwise (fun a b => key a ≠ key b) := by
    intro n
    induction n with
    | zero =>
      intro l h
      match l with
      | [] => exact List.Pairwise.nil
      | c :: rest => simp at h
    | succ n ih =>
      intro l h
      match l with
      | [] => exact List.Pairwise.nil
      | c :: rest =>
        rw [dedupeByKey_cons]
        have h1 : (rest.filter (fun d => key d ≠ key c)).length ≤ n := by
          have := rest.length_filter_le (fun d => decide (key d ≠ key c))
          simp only [List.length_cons] at h
          omega
        refine List.Pairwise.cons ?_ (ih _ h1)
        intro b hb
        have hbf := (dedupeByKey_sublist key _).subset hb
        have := (List.mem_filter.mp hbf).2
        simp only [decide_eq_true_eq] at this
        exact fun hcb => this hcb.symm
  exact aux l.length l (Nat.le_refl _)

/-- The element kept by the dedup for a key is (w.r.t. a reflexive relation
that pairwise-orders the list) related to every element with that key: the
dedup keeps the first occurrence. -/
theorem dedupeByKey_min {α β : Type} [DecidableEq β] (key : α → β) {r : α → α → Prop}
    (hr : ∀ x, r x x) :
    ∀ (n : Nat) (l : List α), l.length ≤ n → l.Pairwise r →
      ∀ a ∈ dedupeByKey key l, ∀ c ∈ l, key c = key a → r a c := by
  intro n
  induction n with
  | zero =>
    intro l h _ a ha
    match l with
    | [] => cases ha
    | c :: rest => simp at h
  | succ n ih =>
    intro l h hp a ha c hc hkey
    match l with
    | [] => cases hc
    | x :: rest =>
      rw [dedupeByKey_cons] at ha
      rcases List.mem_cons.mp ha with hax | ha'
      · rcases List.mem_cons.mp hc with hcx | hcr
        · rw [hax, hcx]
          exact hr x
        · rw [hax]
          exact (List.pairwise_cons.mp hp).1 c hcr
      · have hsubf := (dedupeByKey_sublist key _).subset ha'
        have hka : key a ≠ key x := by
          have := (List.mem_filter.mp hsubf).2
          simpa using this
        rcases List.mem_cons.mp hc with hcx | hcr
        · subst hcx
          exact absurd hkey.symm hka
        · have hcf : c ∈ rest.filter (fun d => key d ≠ key x) :=
            List.mem_filter.mpr ⟨hcr, by simpa using hkey ▸ hka⟩
          have h1 : (rest.filter (fun d => key d ≠ key x)).length ≤ n := by
            have := rest.length_filter_le (fun d => decide (key d ≠ key x))
            simp only [List.length_cons] at h
            omega
          have hpf : (rest.filter (fun d => key d ≠ key x)).Pairwise r :=
            List.Pairwise.sublist rest.filter_sublist (List.pairwise_cons.mp hp).2
          exact ih _ h1 hpf a ha' c hcf hkey

/-- Every candidate's score is the line's score and its recency indexes its
line in the most-recent-first matched list. -/
theorem candidatesOf_mem {log : String} {c : Candidate}
    (hc : c ∈ ApiRoute.candidatesOf log) :
    c.score = scoreLogLine c.line ∧
      (ApiRoute.matchedRev log)[c.recency]? = some c.line := by
  unfold ApiRoute.candidatesOf at hc
  rw [List.mem_map] at hc
  obtain ⟨p, hp, hpc⟩ := hc
  rw [List.mem_enum_iff_getElem?] at hp
  rw [← hpc]
  exact ⟨rfl, hp⟩

/-- `indexOf` is a lower bound for every index holding the element. -/
theorem indexOf_le_of_getElem? {α : Type} [DecidableEq α] :
    ∀ (l : List α) (i : Nat) (x : α), l[i]? = some x → l.indexOf x ≤ i := by
  intro l
  induction l with
  | nil => intro i x h; simp at h
  | cons a rest ih =>
    intro i x h
    match i with
    | 0 =>
      simp only [List.getElem?_cons_zero, Option.some.injEq] at h
      subst h
      simp [List.indexOf_cons]
    | i + 1 =>
      rw [List.getElem?_cons_succ] at h
      rw [List.indexOf_cons]
      cases hax : a == x
      · simpa [Bool.cond_false] using Nat.succ_le_succ (ih i x h)
      · simp [Bool.cond_true]

/-- The recency of a candidate surviving deduplication is the first index of
its line in the most-recent-first matched list: the dedup keeps, per line,
the candidate of the line's most recent occurrence. -/
theorem dedup_recency_eq_indexOf (log : String) {a : Candidate}
    (ha : a ∈ dedupeByKey Candidate.line
      (List.insertionSort candRel (ApiRoute.candidatesOf log))) :
    a.recency = (ApiRoute.matchedRev log).indexOf a.line := by
  have hsorted : (List.insertionSort candRel (ApiRoute.candidatesOf log)).Pairwise candRel :=
    List.sorted_insertionSort candRel _
  have hmem_sorted := (dedupeByKey_sublist Candidate.line _).subset ha
  have hmem_cands := (List.perm_insertionSort candRel _).subset hmem_sorted
  obtain ⟨hscore, hget⟩ := candidatesOf_mem hmem_cands
  have hle : (ApiRoute.matchedRev log).indexOf a.line ≤ a.recency :=
    indexOf_le_of_getElem? _ _ _ hget
  have hmemA : a.line ∈ ApiRoute.matchedRev log := List.getElem?_mem hget
  have hi0 : (ApiRoute.matchedRev log).indexOf a.line < (ApiRoute.matchedRev log).length :=
    List.indexOf_lt_length.mpr hmemA
  have hgetI : (ApiRoute.matchedRev log)[(ApiRoute.matchedRev log).indexOf a.line]? =
      some a.line := by
    rw [List.getElem?_eq_some_iff]
    exact ⟨hi0, List.indexOf_get hi0⟩
  have hc0 : (⟨a.line, scoreLogLine a.line,
      (ApiRoute.matchedRev log).indexOf a.line⟩ : Candidate) ∈
      ApiRoute.candidatesOf log := by
    unfold ApiRoute.candidatesOf
    rw [List.mem_map]
    exact ⟨((ApiRoute.matchedRev log).indexOf a.line, a.line),
      List.mem_enum_iff_getElem?.mpr hgetI, rfl⟩
  have hc0s := (List.perm_insertionSort candRel (ApiRoute.candidatesOf log)).symm.subset hc0
  have hrel := dedupeByKey_min Candidate.line
    (r := candRel) (fun x => Or.inr ⟨rfl, Nat.le_refl _⟩)
    (List.insertionSort candRel (ApiRoute.candidatesOf log)).length _ (Nat.le_refl _)
    hsorted a ha _ hc0s rfl
  unfold candRel at hrel
  rcases hrel with hlt | ⟨_, hle2⟩
  · dsimp only at hlt
    rw [hscore] at hlt
    exact absurd hlt (lt_irrefl _)
  · dsimp only at hle2
    exact Nat.le_antisymm hle2 hle

/-- C5 (amended, for the score-ranked `/api/history` extractor): for any two
distinct lines A and B in the output with A at an earlier position, B's
score never exceeds A's; on equal scores A's most recent occurrence in the
matched (most-recent-first) line list is strictly earlier in that list —
i.e. later in the original log; the output has no duplicate line and at most
`limit` entries.  (The `convex/history.ts` extractor does not rank by score;
see the counterexample.) -/
theorem extract_score_ranking (log : String) (limit : Nat) (A B : String) (i j : Nat)
    (hij : i < j) (hAB : A ≠ B)
    (hA : (ApiRoute.extractErrorHighlights log limit)[i]? = some A)
    (hB : (ApiRoute.extractErrorHighlights log limit)[j]? = some B) :
    scoreLogLine B ≤ scoreLogLine A ∧
    (scoreLogLine A = scoreLogLine B →
      (ApiRoute.matchedRev log).indexOf A < (ApiRoute.matchedRev log).indexOf B) ∧
    (ApiRoute.extractErrorHighlights log limit).Nodup ∧
    (ApiRoute.extractErrorHighlights log limit).length ≤ limit := by
  have hout : ApiRoute.extractErrorHighlights log limit =
      ((dedupeByKey Candidate.line (List.insertionSort candRel
        (ApiRoute.candidatesOf log))).take limit).map Candidate.line := rfl
  rw [hout] at hA hB ⊢
  rw [List.getElem?_map] at hA hB
  obtain ⟨a, haq, haline⟩ := Option.map_eq_some'.mp hA
  obtain ⟨b, hbq, hbline⟩ := Option.map_eq_some'.mp hB
  have hsorted : (List.insertionSort candRel (ApiRoute.candidatesOf log)).Pairwise candRel :=
    List.sorted_insertionSort candRel _
  have hded_pair := List.Pairwise.sublist (dedupeByKey_sublist Candidate.line _) hsorted
  have htake_pair := List.Pairwise.sublist (List.take_sublist limit _) hded_pair
  obtain ⟨hi, hia⟩ := List.getElem?_eq_some_iff.mp haq
  obtain ⟨hj, hjb⟩ := List.getElem?_eq_some_iff.mp hbq
  have hrel : candRel a b := by
    have := List.pairwise_iff_getElem.mp htake_pair i j hi hj hij
    rwa [hia, hjb] at this
  have ha_ded := (List.take_sublist limit _).subset (List.getElem?_mem haq)
  have hb_ded := (List.take_sublist limit _).subset (List.getElem?_mem hbq)
  have ha_cands := (List.perm_insertionSort candRel _).subset
    ((dedupeByKey_sublist Candidate.line _).subset ha_ded)
  have hb_cands := (List.perm_insertionSort candRel _).subset
    ((dedupeByKey_sublist Candidate.line _).subset hb_ded)
  have hscoreA : a.score = scoreLogLine A := haline ▸ (candidatesOf_mem ha_cands).1
  have hscoreB : b.score = scoreLogLine B := hbline ▸ (candidatesOf_mem hb_cands).1
  unfold candRel at hrel
  refine ⟨?_, ?_, ?_, ?_⟩
  · rcases hrel with hlt | ⟨heq, _⟩
    · rw [← hscoreA, ← hscoreB]
      exact le_of_lt hlt
    · rw [← hscoreA, ← hscoreB, heq]
  · intro hseq
    have hra : a.recency = (ApiRoute.matchedRev log).indexOf A :=
      haline ▸ dedup_recency_eq_indexOf log ha_ded
    have hrb : b.recency = (ApiRoute.matchedRev log).indexOf B :=
      hbline ▸ dedup_recency_eq_indexOf log hb_ded
    rcases hrel with hlt | ⟨_, hle⟩
    · rw [hscoreA, hscoreB, ← hseq] at hlt
      exact absurd hlt (lt_irrefl _)
    · have hne : a.recency ≠ b.recency := by
        intro hrr
        have h1 := (candidatesOf_mem ha_cands).2
        have h2 := (candidatesOf_mem hb_cands).2
        rw [hrr] at h1
        rw [h1] at h2
        apply hAB
        rw [← haline, ← hbline]
        exact Option.some.inj h2
      rw [← hra, ← hrb]
      exact lt_of_le_of_ne hle hne
  · have hkeys := dedupeByKey_keys Candidate.line
      (List.insertionSort candRel (ApiRoute.candidatesOf log))
    have htake_keys := List.Pairwise.sublist (List.take_sublist limit _) hkeys
    exact List.Pairwise.map Candidate.line (fun a b h => h) htake_keys
  · simp only [List.length_map, List.length_take]
    exact min_le_left _ _

/-- Witness for C5 (amended) at a concrete two-line log: the score-5
database error ranks before the score-1 generic `failed` line although it
occurs earlier in the log. -/
theorem extract_score_ranking_witness :
    scoreLogLine "a thing failed here" ≤ scoreLogLine "Database Error in model x" ∧
    (scoreLogLine "Database Error in model x" = scoreLogLine "a thing failed here" →
      (ApiRoute.matchedRev "Database Error in model x\na thing failed here").indexOf
          "Database Error in model x" <
        (ApiRoute.matchedRev "Database Error in model x\na thing failed here").indexOf
          "a thing failed here") ∧
    (ApiRoute.extractErrorHighlights "Database Error in model x\na thing failed here" 3).Nodup ∧
    (ApiRoute.extractErrorHighlights
      "Database Error in model x\na thing failed here" 3).length ≤ 3 :=
  extract_score_ranking "Database Error in model x\na thing failed here" 3
    "Database Error in model x" "a thing failed here" 0 1
    (by decide) (by decide) (by decide) (by decide)

/-- C5 counterexample: the `convex/history.ts` `extractErrorHighlights`
(also cited by the claim) returns matched lines in pure recency order — on
this log the score-5 `Database Error` line appears after the score-1 generic
`failed` line, violating score-descending ranking. -/
theorem extract_score_order_cex :
    History.extractErrorHighlights "Database Error happened\nsomething failed here" =
      ["something failed here", "Database Error happened"] ∧
    scoreLogLine "Database Error happened" = 5 ∧
    scoreLogLine "something failed here" = 1 := by
  decide
